import Mathlib

/-!
Shallow embedding of the auction lifecycle and bidding core of the Artsy
repository (server/storage.ts, server/routes.ts, server/utils.ts,
shared/schema.ts), with theorems settling the frozen claims about it.

Monetary values travel as decimal strings, exactly as in the source; the
`formatDecimal` helper of server/utils.ts is `parseFloat` followed by
`Number.prototype.toFixed(2)`, so the file begins with a model of those two
ECMA-262 operations over exact rationals (the source never manipulates the
binary representation of a number, and every value reaching these functions
is a decimal literal, so `ℚ` stands in for the IEEE double).
-/

namespace Artsy

/-! ## Characters and digit strings -/

/-- ASCII whitespace accepted by the `parseFloat` trim step. -/
def isWsChar (c : Char) : Bool := (9 ≤ c.toNat && c.toNat ≤ 13) || c.toNat == 32

/-- Decimal digit test. -/
def isDigitChar (c : Char) : Bool := 48 ≤ c.toNat && c.toNat ≤ 57

/-- Numeric value of a digit character. -/
def digitVal (c : Char) : Nat := c.toNat - 48

/-- The character for a digit. -/
def digitChar (d : Nat) : Char := Char.ofNat (48 + d)

/-- Digit-writing loop, structurally recursive on a fuel bound so that the
kernel can evaluate it; `fuel > n` is always enough. -/
def natDigitsAux (fuel : Nat) (n : Nat) (acc : List Char) : List Char :=
  match fuel with
  | 0 => acc
  | f + 1 =>
    if n < 10 then digitChar n :: acc
    else natDigitsAux f (n / 10) (digitChar (n % 10) :: acc)

/-- Decimal digits of a natural number, most significant first. -/
def natDigits (n : Nat) : List Char := natDigitsAux (n + 1) n []

/-- Read a digit string as a natural number, starting from `a`. -/
def readNatFrom (a : Nat) (l : List Char) : Nat :=
  l.foldl (fun x c => 10 * x + digitVal c) a

/-- Read a digit string as a natural number. -/
def readNat (l : List Char) : Nat := readNatFrom 0 l

/-- Zero-stripping loop, structurally recursive on a fuel bound; `fuel ≥ m`
is always enough. -/
def stripZerosAux (fuel : Nat) (m : Nat) : Nat × Nat :=
  match fuel with
  | 0 => (m, 0)
  | f + 1 =>
    if m ≠ 0 ∧ m % 10 = 0 then
      let p := stripZerosAux f (m / 10)
      (p.1, p.2 + 1)
    else (m, 0)

/-- Split off the trailing decimal zeros: `stripZeros m = (m', t)` with
`m = m' * 10 ^ t` and, for `m ≠ 0`, `m'` not divisible by ten. -/
def stripZeros (m : Nat) : Nat × Nat := stripZerosAux m m

/-! ## The JavaScript number model

`parseFloat` (ECMA-262 19.2.4) trims whitespace and reads the longest prefix
that is a `StrDecimalLiteral`: an optional sign, then `Infinity` or decimal
digits with an optional fraction and exponent. Unparseable input is `NaN`,
which `formatDecimal` immediately maps to `"0.00"`, so the model returns
`Option JsNum` with `none` for `NaN`. -/

/-- A finite decimal number `num / 10 ^ scale`, the exact value of a
decimal literal. Values are kept canonical (see `decCanon`), which makes
structural equality value equality. -/
structure Dec where
  num : Int
  scale : Nat
deriving DecidableEq, Repr

/-- Canonical form of `n / 10 ^ s`: divide out trailing factors of ten from
the numerator while the scale is positive. -/
def decCanon (n : Int) (s : Nat) : Dec :=
  match s with
  | 0 => ⟨n, 0⟩
  | t + 1 => if n % 10 = 0 then decCanon (n / 10) t else ⟨n, t + 1⟩

/-- A decimal is canonical when a positive scale comes with a numerator not
divisible by ten; `decCanon` establishes this, and it makes structural
equality of decimals coincide with value equality. -/
def dCanonical (d : Dec) : Prop := d.scale ≠ 0 → ¬ d.num % 10 = 0

/-- Multiply a decimal by `10 ^ e`: scale the numerator up for nonnegative
`e`, deepen the scale otherwise. -/
def dMulPow10 (d : Dec) (e : Int) : Dec :=
  if 0 ≤ e then ⟨d.num * 10 ^ e.toNat, d.scale⟩ else ⟨d.num, d.scale + e.natAbs⟩

/-- The rational value of a decimal; used in statements only, never on an
evaluation path. -/
def Dec.toRat (d : Dec) : ℚ := (d.num : ℚ) / 10 ^ d.scale

/-- A JavaScript number as it can come out of `parseFloat` on a literal:
an infinity or a finite decimal. -/
inductive JsNum where
  | inf (neg : Bool)
  | fin (d : Dec)
deriving DecidableEq, Repr

/-- Optional leading sign. -/
def parseSign (cs : List Char) : Bool × List Char :=
  match cs with
  | [] => (false, [])
  | c :: r =>
    if c = '+' then (false, r) else if c = '-' then (true, r) else (false, c :: r)

/-- Exponent part, if the remaining input starts with a valid one
(`e`/`E`, optional sign, at least one digit); otherwise the longest valid
prefix of the literal ended before it and the exponent is zero. -/
def parseExpPart (cs : List Char) : Int :=
  match cs with
  | c :: rest =>
    if c = 'e' ∨ c = 'E' then
      let p := parseSign rest
      let ds := p.2.takeWhile isDigitChar
      if ds = [] then 0
      else if p.1 then -(readNat ds : Int) else (readNat ds : Int)
    else 0
  | [] => 0

/-- Integer digits, then an optional `.` with fraction digits. Fails when
neither side of the point has a digit. Returns the value read —
`intpart.fracpart` as the decimal `(intpart · 10 ^ f + fracpart) / 10 ^ f`
— and the unconsumed input. -/
def parseMantissa (cs : List Char) : Option (Dec × List Char) :=
  let ip := cs.takeWhile isDigitChar
  let r1 := cs.dropWhile isDigitChar
  let fr : List Char × List Char :=
    match r1 with
    | c :: r => if c = '.' then (r.takeWhile isDigitChar, r.dropWhile isDigitChar) else ([], c :: r)
    | [] => ([], [])
  if ip = [] ∧ fr.1 = [] then none
  else some (⟨(readNat ip : Int) * 10 ^ fr.1.length + (readNat fr.1 : Int), fr.1.length⟩, fr.2)

/-- The literal after the sign: `Infinity` or a decimal mantissa with an
optional exponent; the resulting value is kept canonical. -/
def parseAfterSign (neg : Bool) (cs : List Char) : Option JsNum :=
  if ("Infinity".toList).isPrefixOf cs then some (.inf neg)
  else
    match parseMantissa cs with
    | none => none
    | some mr =>
      let d := dMulPow10 mr.1 (parseExpPart mr.2)
      some (.fin (decCanon (if neg then -d.num else d.num) d.scale))

/-- ECMA-262 `parseFloat`, with `none` for `NaN`. -/
def jsParseFloat (s : String) : Option JsNum :=
  let cs := s.toList.dropWhile isWsChar
  let p := parseSign cs
  parseAfterSign p.1 p.2

/-- The fixed-notation body of `toFixed(2)` for the rounded integer `n` of
hundredths: the digits of `n`, left-padded with zeros to at least three, with
the point inserted before the last two. -/
def fixedString (n : Nat) : List Char :=
  let ds := natDigits n
  let m := if ds.length ≤ 2 then List.replicate (3 - ds.length) '0' ++ ds else ds
  m.take (m.length - 2) ++ '.' :: m.drop (m.length - 2)

/-- ECMA-262 `Number::toString` (radix 10) for the positive decimal value
`M / 10 ^ s`: the shortest digits `m` and point position `n` with the value
equal to `m · 10 ^ (n - k)`, printed plain for `-6 < n ≤ 21` and in
exponential notation otherwise. -/
def jsToStringPos (M : Nat) (s : Nat) : List Char :=
  let p := stripZeros M
  let ds := natDigits p.1
  let k := ds.length
  let n : Int := (k : Int) + (p.2 : Int) - (s : Int)
  if (k : Int) ≤ n ∧ n ≤ 21 then ds ++ List.replicate (n - k).toNat '0'
  else if 0 < n ∧ n ≤ 21 then ds.take n.toNat ++ '.' :: ds.drop n.toNat
  else if -6 < n ∧ n ≤ 0 then '0' :: '.' :: (List.replicate (-n).toNat '0' ++ ds)
  else
    let e := n - 1
    let es := (if e < 0 then ['-'] else ['+']) ++ natDigits e.natAbs
    if k = 1 then ds ++ 'e' :: es
    else ds.take 1 ++ '.' :: (ds.drop 1 ++ 'e' :: es)

/-- ECMA-262 `Number.prototype.toFixed(2)`: sign, then the magnitude
`M / 10 ^ s` rounded to the integer `n` of hundredths, half away from zero
(`⌊(200 M + 10 ^ s) / (2 · 10 ^ s)⌋`); very large magnitudes fall back to
`toString`. The large-value test is taken on the rounded value, which
agrees with the `x ≥ 10²¹` test of the standard at every IEEE double (no
double lies between `10²¹ − 1/200` and `10²¹`). -/
def toFixed2 (v : JsNum) : String :=
  match v with
  | .inf false => "Infinity"
  | .inf true => "-Infinity"
  | .fin d =>
    let sgn : List Char := if d.num < 0 then ['-'] else []
    let M := d.num.natAbs
    let P := 10 ^ d.scale
    let n : Nat := (200 * M + P) / (2 * P)
    if 10 ^ 23 ≤ n then String.mk (sgn ++ jsToStringPos M d.scale)
    else String.mk (sgn ++ fixedString n)

/-- server/utils.ts `formatDecimal`: `parseFloat`, `"0.00"` on `NaN`, else
`toFixed(2)`. -/
def formatDecimal (value : String) : String :=
  match jsParseFloat value with
  | none => "0.00"
  | some v => toFixed2 v

/-- The finite numeric value of a decimal string, when it has one; used to
state price comparisons about the stored strings. -/
def decValue (s : String) : Option Dec :=
  match jsParseFloat s with
  | some (.fin d) => some d
  | _ => none

/-- A string that ends in a point followed by exactly two digits, with no
other point: the canonical two-decimal money shape. -/
def twoDecimalForm (s : String) : Bool :=
  match s.toList.reverse with
  | c0 :: c1 :: cdot :: rest =>
    isDigitChar c1 && isDigitChar c0 && (cdot == '.') && rest.all (fun c => !(c == '.'))
  | _ => false

/-! ## Data model (shared/schema.ts)

Timestamps are epoch milliseconds (`Int`). Prices and bid amounts are the
decimal strings the source stores. -/

/-- Enum `ArtworkStatus`. -/
inductive ArtworkStatus where
  | PENDING
  | ACTIVE
  | SOLD
  | EXPIRED
deriving DecidableEq, Repr

/-- Enum `UserRole`. -/
inductive UserRole where
  | BIDDER
  | ARTIST
  | ADMIN
deriving DecidableEq, Repr

/-- Row of the `users` table. -/
structure User where
  id : String
  clerkId : String
  email : String
  name : Option String
  role : UserRole
  createdAt : Int
  updatedAt : Int
deriving DecidableEq, Repr

/-- Row of the `artworks` table (a listing). `category` and `auctionStart`
are nullable columns; `isActive` defaults to true. -/
structure Artwork where
  id : String
  title : String
  description : String
  imageUrl : String
  imagePublicId : String
  category : Option String
  startingPrice : String
  currentPrice : String
  status : ArtworkStatus
  auctionStart : Option Int
  endTime : Int
  isActive : Bool
  artistId : String
  createdAt : Int
  updatedAt : Int
deriving DecidableEq, Repr

/-- Row of the `bids` table. -/
structure Bid where
  id : String
  artworkId : String
  bidderId : String
  amount : String
  createdAt : Int
deriving DecidableEq, Repr

/-- The persistent state: the three tables. -/
structure DB where
  users : List User
  artworks : List Artwork
  bids : List Bid
deriving DecidableEq, Repr

/-- Output of `insertArtworkSchema`: the form the POST /api/artworks route
assembles. The zod `endTime` transform `new Date(str)` is modelled by the
resulting timestamp, since the schema applies no refinement to it either
way; `startingPrice` stays the raw string, as in the source. -/
structure InsertArtwork where
  title : String
  description : String
  imageUrl : String
  imagePublicId : String
  category : String
  startingPrice : String
  endTime : Int
  artistId : String
  status : ArtworkStatus
deriving DecidableEq, Repr

/-- Output of `insertBidSchema` (`createInsertSchema(bids)` minus `id` and
`createdAt`): three string fields, shape only, no numeric refinement. -/
structure InsertBid where
  artworkId : String
  bidderId : String
  amount : String
deriving DecidableEq, Repr

/-- shared/schema.ts `insertArtworkSchema`: every textual field must be
nonempty (`z.string().min(1)`); `startingPrice` and `endTime` pass through
with no validation at all. -/
def insertArtworkSchemaParse (d : InsertArtwork) : Option InsertArtwork :=
  if 1 ≤ d.title.length ∧ 1 ≤ d.description.length ∧ 1 ≤ d.imageUrl.length ∧
      1 ≤ d.imagePublicId.length ∧ 1 ≤ d.category.length ∧ 1 ≤ d.artistId.length
  then some d else none

/-! ## Storage operations (server/storage.ts `DatabaseStorage`)

Each operation is the pure state transformer of the corresponding method:
the database rows in, the database rows out, with the generated id and the
clock reading (`new Date()`) passed explicitly. SQL `DELETE`/`UPDATE`
affect every matching row; `INSERT` appends a row. The Cloudinary calls,
logging and the WebSocket broadcast have no effect on the stored state and
are dropped. Result-set ordering (`ORDER BY`) and the bidder/artist display
joins are dropped as well: no claim mentions them. -/

/-- Helper `formatArtworkPrices`: the returned copy of an artwork has both
price fields canonicalized. -/
def formatArtworkPrices (a : Artwork) : Artwork :=
  { a with startingPrice := formatDecimal a.startingPrice,
           currentPrice := formatDecimal a.currentPrice }

/-- Helper `formatBidAmount`. -/
def formatBidAmount (b : Bid) : Bid :=
  { b with amount := formatDecimal b.amount }

/-- `createArtwork`: inserts a row with `currentPrice` copied from
`startingPrice`, fresh timestamps, and the column defaults (`isActive`
true, `auctionStart` null); returns the formatted copy. -/
def createArtwork (s : DB) (d : InsertArtwork) (newId : String) (now : Int) :
    DB × Artwork :=
  let a : Artwork :=
    { id := newId, title := d.title, description := d.description,
      imageUrl := d.imageUrl, imagePublicId := d.imagePublicId,
      category := some d.category, startingPrice := d.startingPrice,
      currentPrice := d.startingPrice, status := d.status,
      auctionStart := none, endTime := d.endTime, isActive := true,
      artistId := d.artistId, createdAt := now, updatedAt := now }
  ({ s with artworks := s.artworks ++ [a] }, formatArtworkPrices a)

/-- `updateArtworkPrice`: sets `currentPrice` and `updatedAt` on every row
whose id matches; no comparison with the old price or with
`startingPrice`. -/
def updateArtworkPrice (s : DB) (id : String) (currentPrice : String) (now : Int) : DB :=
  { s with artworks := s.artworks.map (fun a =>
      if a.id = id then { a with currentPrice := currentPrice, updatedAt := now } else a) }

/-- `updateArtworkStatus`: sets `status` and `updatedAt` on every row whose
id matches; the requested status is stored unconditionally. -/
def updateArtworkStatus (s : DB) (id : String) (st : ArtworkStatus) (now : Int) : DB :=
  { s with artworks := s.artworks.map (fun a =>
      if a.id = id then { a with status := st, updatedAt := now } else a) }

/-- `deleteArtwork`: best-effort Cloudinary release (no stored-state
effect), then deletes the artwork row. The artwork's bids are not
touched. -/
def deleteArtwork (s : DB) (id : String) : DB :=
  { s with artworks := s.artworks.filter (fun a => decide (¬ a.id = id)) }

/-- `getArtworkBids`: the bids of one artwork. -/
def getArtworkBids (s : DB) (artworkId : String) : List Bid :=
  s.bids.filter (fun b => decide (b.artworkId = artworkId))

/-- `createBid`: inserts the bid row, then updates the artwork's current
price to the bid amount; no check that the artwork exists, is open, or
that the amount exceeds anything. Returns the formatted bid. -/
def createBid (s : DB) (d : InsertBid) (newId : String) (now : Int) : DB × Bid :=
  let bid : Bid :=
    { id := newId, artworkId := d.artworkId, bidderId := d.bidderId,
      amount := d.amount, createdAt := now }
  let s1 : DB := { s with bids := s.bids ++ [bid] }
  (updateArtworkPrice s1 d.artworkId d.amount now, formatBidAmount bid)

/-- POST /api/bids (server/routes.ts): parse `insertBidSchema` with the
authenticated user as bidder — three strings, always well-shaped here —
then `createBid`; the WebSocket notification carries no state. -/
def postBid (s : DB) (artworkId bidderId amount : String) (newId : String) (now : Int) :
    DB × Bid :=
  createBid s { artworkId := artworkId, bidderId := bidderId, amount := amount } newId now

/-- One iteration of the `processExpiredArtworks` loop: consult the bids of
the artwork in the current state, mark SOLD when any exist, EXPIRED
otherwise. -/
def expiredStep (now : Int) (db : DB) (a : Artwork) : DB :=
  if (getArtworkBids db a.id).length > 0
  then updateArtworkStatus db a.id ArtworkStatus.SOLD now
  else updateArtworkStatus db a.id ArtworkStatus.EXPIRED now

/-- `processExpiredArtworks` (the Expiration Reconciler sweep): select the
ACTIVE artworks whose end time is strictly before now, then process each in
turn against the evolving state. -/
def processExpiredArtworks (s : DB) (now : Int) : DB :=
  let expired := s.artworks.filter (fun a =>
    decide (a.status = ArtworkStatus.ACTIVE ∧ a.endTime < now))
  expired.foldl (expiredStep now) s

/-- One iteration of the `deleteUserAccount` loop over the user's own
artworks: delete the bids on that artwork, then the artwork row. -/
def deleteOwnedStep (db : DB) (a : Artwork) : DB :=
  { db with bids := db.bids.filter (fun b => decide (¬ b.artworkId = a.id)),
            artworks := db.artworks.filter (fun x => decide (¬ x.id = a.id)) }

/-- `deleteUserAccount`: delete the user's bids, then each owned artwork
with its bids, then the user row. The `forceDelete` flag is only logged. -/
def deleteUserAccount (s : DB) (userId : String) (forceDelete : Bool) : DB :=
  let s1 : DB := { s with bids := s.bids.filter (fun b => decide (¬ b.bidderId = userId)) }
  let owned := s1.artworks.filter (fun a => decide (a.artistId = userId))
  let s2 := owned.foldl deleteOwnedStep s1
  { s2 with users := s2.users.filter (fun u => decide (¬ u.id = userId)) }

/-- Referential integrity of the bids table: every bid points at an
existing artwork. -/
def noOrphanBids (s : DB) : Prop :=
  ∀ b ∈ s.bids, ∃ a ∈ s.artworks, a.id = b.artworkId

instance (s : DB) : Decidable (noOrphanBids s) := by
  unfold noOrphanBids
  infer_instance

/-- The per-artwork outcome the sweep stores, as a function of the bids
table: SOLD when the artwork has bids, EXPIRED otherwise. -/
def expiredOutcome (bids : List Bid) (id : String) : ArtworkStatus :=
  if (bids.filter (fun b => decide (b.artworkId = id))).length > 0
  then ArtworkStatus.SOLD else ArtworkStatus.EXPIRED

/-- What one sweep at time `now` does to one row of state `s`: an ACTIVE
artwork whose end time has passed becomes SOLD or EXPIRED by bid presence,
anything else is untouched; the price fields are never written. -/
def sweepMark (s : DB) (now : Int) (a : Artwork) : Artwork :=
  if a.status = ArtworkStatus.ACTIVE ∧ a.endTime < now then
    { a with status := (if (getArtworkBids s a.id).length > 0
                        then ArtworkStatus.SOLD else ArtworkStatus.EXPIRED),
             updatedAt := now }
  else a

/-! ## Concrete fixtures for the claim theorems -/

/-- An artwork row with the fields the claims vary; the display fields are
fixed harmless values. -/
def awFix (id : String) (st : ArtworkStatus) (startP curP : String)
    (endT : Int) (artist : String) : Artwork :=
  { id := id, title := "t", description := "d", imageUrl := "u",
    imagePublicId := "p", category := some "art", startingPrice := startP,
    currentPrice := curP, status := st, auctionStart := none,
    endTime := endT, isActive := true, artistId := artist,
    createdAt := 0, updatedAt := 0 }

/-- A bid row. -/
def bidFix (id aw bidder amount : String) (t : Int) : Bid :=
  { id := id, artworkId := aw, bidderId := bidder, amount := amount, createdAt := t }

/-- A user row. -/
def userFix (id : String) : User :=
  { id := id, clerkId := id, email := "e", name := none,
    role := UserRole.BIDDER, createdAt := 0, updatedAt := 0 }

/-- One open listing at current price 100.00, ending at time 2000. -/
def dbOpen : DB :=
  { users := [userFix "U1"],
    artworks := [awFix "A1" ArtworkStatus.ACTIVE "100.00" "100.00" 2000 "U1"],
    bids := [] }

/-- One SOLD listing whose end time 1000 is already past. -/
def dbSold : DB :=
  { users := [userFix "U1"],
    artworks := [awFix "A2" ArtworkStatus.SOLD "100.00" "250.00" 1000 "U1"],
    bids := [] }

/-- One listing owned by U2 carrying a bid by U3. -/
def dbOwned : DB :=
  { users := [userFix "U2", userFix "U3"],
    artworks := [awFix "A3" ArtworkStatus.ACTIVE "100.00" "150.00" 9000 "U2"],
    bids := [bidFix "B1" "A3" "U3" "150.00" 10] }

/-- Three ACTIVE listings at time 1000: E1 past-due with no bids, S1
past-due with one bid of "200.00", F1 still running. -/
def dbSweep : DB :=
  { users := [userFix "U1"],
    artworks := [awFix "E1" ArtworkStatus.ACTIVE "50.00" "50.00" 500 "U1",
                 awFix "S1" ArtworkStatus.ACTIVE "100.00" "200.00" 500 "U1",
                 awFix "F1" ArtworkStatus.ACTIVE "10.00" "10.00" 5000 "U1"],
    bids := [bidFix "B1" "S1" "U3" "200.00" 10] }

/-- A creation form that is well-shaped for the zod schema but has a
negative starting price and an end time in the past. -/
def badForm : InsertArtwork :=
  { title := "T", description := "D", imageUrl := "U", imagePublicId := "P",
    category := "art", startingPrice := "-5.00", endTime := 946684800000,
    artistId := "U1", status := ArtworkStatus.ACTIVE }

end Artsy

namespace Artsy

/-! # Theorems

Helper lemmas first, then one theorem (plus witness or counterexample) per
claim of the specification. -/

/-! ## Claims C1 and C3: the bid path has no validation -/

/-- C1: the claim says a bid with `amount <= currentPrice` on an existing
listing is rejected with `BidTooLowError` and changes nothing. The code has
no such path: POST /api/bids parses three strings and calls `createBid`,
which appends the bid row and overwrites `currentPrice` with the amount.
At the claim's own Scenario 1 input — listing at "100.00", bid "99.99",
well before the end time — the bid is recorded and the price drops. -/
theorem bid_below_current_price_accepted :
    ((postBid dbOpen "A1" "U3" "99.99" "b1" 1000).1.bids.map (fun b => b.amount)
      = ["99.99"]) ∧
    ((postBid dbOpen "A1" "U3" "99.99" "b1" 1000).1.artworks.map (fun a => a.currentPrice)
      = ["99.99"]) ∧
    decValue "99.99" = some ⟨9999, 2⟩ ∧ decValue "100.00" = some ⟨100, 0⟩ ∧
    (⟨9999, 2⟩ : Dec).toRat < (⟨100, 0⟩ : Dec).toRat := by
  refine ⟨by decide, by decide, by decide, by decide, by norm_num [Dec.toRat]⟩

/-- C3: the claim says every bid against a SOLD (or otherwise closed)
listing is rejected with `AuctionClosedError` and never recorded. Neither
routes.ts nor storage.ts consults `status` or `endTime` on the bid path:
against the SOLD, time-expired listing of `dbSold` a bid is appended and
the price overwritten exactly as on an open listing. -/
theorem bid_on_sold_listing_accepted :
    (dbSold.artworks.map (fun a => (a.status, a.endTime)) = [(ArtworkStatus.SOLD, 1000)]) ∧
    ((postBid dbSold "A2" "U3" "300.00" "b2" 5000).1.bids.map (fun b => (b.artworkId, b.amount))
      = [("A2", "300.00")]) ∧
    ((postBid dbSold "A2" "U3" "300.00" "b2" 5000).1.artworks.map (fun a => (a.status, a.currentPrice))
      = [(ArtworkStatus.SOLD, "300.00")]) := by
  refine ⟨by decide, by decide, by decide⟩

/-! ## Claim C2: the price floor invariant -/

/-- C2 counterexample: a bid of "50.00" against the listing of `dbOpen`
(startingPrice "100.00") goes through and leaves `currentPrice` at "50.00",
strictly below the starting price, so the invariant
`currentPrice >= startingPrice` does not hold at all times. -/
theorem current_price_can_fall_below_starting :
    ((postBid dbOpen "A1" "U3" "50.00" "b3" 1000).1.artworks.map
        (fun a => (a.startingPrice, a.currentPrice)) = [("100.00", "50.00")]) ∧
    decValue "50.00" = some ⟨50, 0⟩ ∧ decValue "100.00" = some ⟨100, 0⟩ ∧
    (⟨50, 0⟩ : Dec).toRat < (⟨100, 0⟩ : Dec).toRat := by
  refine ⟨by decide, by decide, by decide, by norm_num [Dec.toRat]⟩

/-- C2 (amended): a listing is created with `currentPrice` equal to
`startingPrice`, so the invariant holds at creation; but a bid commit
overwrites the listing's `currentPrice` with the bid amount unconditionally
(`updateArtworkPrice` has no floor), so later operations can drive it below
`startingPrice`. -/
theorem created_price_equal_and_bid_overwrites :
    (∀ (s : DB) (d : InsertArtwork) (i : String) (n : Int),
      ∃ a : Artwork, (createArtwork s d i n).1.artworks = s.artworks ++ [a] ∧
        a.currentPrice = d.startingPrice ∧ a.startingPrice = d.startingPrice) ∧
    (∀ (s : DB) (d : InsertBid) (i : String) (n : Int),
      ∀ a ∈ (createBid s d i n).1.artworks, a.id = d.artworkId →
        a.currentPrice = d.amount) := by
  constructor
  · intro s d i n
    exact ⟨_, rfl, rfl, rfl⟩
  · intro s d i n a ha hid
    simp only [createBid, updateArtworkPrice, List.mem_map] at ha
    obtain ⟨b, hb, hba⟩ := ha
    by_cases h : b.id = d.artworkId
    · rw [if_pos h] at hba
      rw [← hba]
    · rw [if_neg h] at hba
      rw [← hba] at hid
      exact absurd hid h

/-- C2 witness: the amended statement applied at a concrete creation and a
concrete bid commit. -/
theorem created_price_equal_and_bid_overwrites_witness :
    ∃ a : Artwork, (createArtwork dbOpen badForm "A9" 0).1.artworks
        = dbOpen.artworks ++ [a] ∧
      a.currentPrice = badForm.startingPrice ∧ a.startingPrice = badForm.startingPrice := by
  obtain ⟨h1, h2⟩ := created_price_equal_and_bid_overwrites
  exact h1 dbOpen badForm "A9" 0

/-! ## Claim C7: status transitions -/

/-- C7 counterexample: the claim says `updateStatus` fails with
`InvalidTransitionError` and leaves the row unchanged for any request that
does not follow the forward-only lifecycle. The code stores any requested
status: moving the terminal SOLD listing of `dbSold` back to ACTIVE
succeeds and the stored status changes. -/
theorem terminal_status_can_move_backward :
    (updateArtworkStatus dbSold "A2" ArtworkStatus.ACTIVE 5).artworks.map (fun a => a.status)
      = [ArtworkStatus.ACTIVE] := by decide

/-- C7 (amended): `updateArtworkStatus` stores the requested status
unconditionally on every matching row, touching only `status` and
`updatedAt` there; rows with other ids and the other tables are untouched,
and no transition order is enforced (no `InvalidTransitionError` exists in
the code). -/
theorem update_status_unconditional :
    ∀ (s : DB) (id : String) (st : ArtworkStatus) (now : Int),
      (updateArtworkStatus s id st now).bids = s.bids ∧
      (updateArtworkStatus s id st now).users = s.users ∧
      (∀ a ∈ s.artworks, a.id = id →
        { a with status := st, updatedAt := now } ∈ (updateArtworkStatus s id st now).artworks) ∧
      (∀ a ∈ s.artworks, ¬ a.id = id → a ∈ (updateArtworkStatus s id st now).artworks) := by
  intro s id st now
  refine ⟨rfl, rfl, ?_, ?_⟩
  · intro a ha hid
    exact List.mem_map.2 ⟨a, ha, by simp [hid]⟩
  · intro a ha hid
    exact List.mem_map.2 ⟨a, ha, by simp [hid]⟩

/-- C7 witness: the amended statement applied to the SOLD listing of
`dbSold` and the request to store EXPIRED. -/
theorem update_status_unconditional_witness :
    { awFix "A2" ArtworkStatus.SOLD "100.00" "250.00" 1000 "U1" with
        status := ArtworkStatus.EXPIRED, updatedAt := 7 }
      ∈ (updateArtworkStatus dbSold "A2" ArtworkStatus.EXPIRED 7).artworks := by
  have h := update_status_unconditional dbSold "A2" ArtworkStatus.EXPIRED 7
  exact h.2.2.1 _ (by decide) (by decide)

/-! ## Claims C4 and C8: the Expiration Reconciler sweep -/

/-- One loop iteration of the sweep is a status update with the outcome
read off the current bids table. -/
theorem expiredStep_eq (now : Int) (db : DB) (a : Artwork) :
    expiredStep now db a = updateArtworkStatus db a.id (expiredOutcome db.bids a.id) now := by
  unfold expiredStep expiredOutcome getArtworkBids
  split <;> simp [*]

/-- The sweep loop in closed form: every artwork whose id occurs in the
processed list gets the outcome status and a fresh `updatedAt`; everything
else — including every price field and the other tables — is untouched.
The bids consulted mid-loop are those of the starting state, because the
loop never writes the bids table. -/
theorem foldl_expiredStep (now : Int) (L : List Artwork) (db : DB) :
    L.foldl (expiredStep now) db =
      { db with artworks := db.artworks.map (fun a =>
          if a.id ∈ L.map (fun x => x.id) then
            { a with status := expiredOutcome db.bids a.id, updatedAt := now }
          else a) } := by
  induction L generalizing db with
  | nil => simp
  | cons x L ih =>
    rw [List.foldl_cons, expiredStep_eq, ih]
    cases db with
    | mk us aws bs =>
      simp only [updateArtworkStatus]
      congr 1
      rw [List.map_map]
      refine List.map_congr_left (fun a _ => ?_)
      by_cases h1 : a.id = x.id <;> by_cases h2 : a.id ∈ L.map (fun x => x.id) <;>
        simp [Function.comp, h1, h2]

/-- `processExpiredArtworks` in closed form. -/
theorem processExpiredArtworks_eq (s : DB) (now : Int) :
    processExpiredArtworks s now =
      { s with artworks := s.artworks.map (fun a =>
          if a.id ∈ ((s.artworks.filter (fun a =>
              decide (a.status = ArtworkStatus.ACTIVE ∧ a.endTime < now))).map (fun x => x.id))
          then { a with status := expiredOutcome s.bids a.id, updatedAt := now }
          else a) } := by
  unfold processExpiredArtworks
  dsimp only
  exact foldl_expiredStep now _ s

/-- A sweep over a state with nothing eligible does nothing. -/
theorem processExpiredArtworks_of_none (t : DB) (now : Int)
    (h : t.artworks.filter (fun a =>
        decide (a.status = ArtworkStatus.ACTIVE ∧ a.endTime < now)) = []) :
    processExpiredArtworks t now = t := by
  unfold processExpiredArtworks
  dsimp only
  rw [h]
  rfl

/-- C4: one sweep at time `now` transitions exactly the ACTIVE listings
whose end time is strictly before `now` — to SOLD when they have at least
one bid, to EXPIRED otherwise — and rewrites nothing but their `status` and
`updatedAt`: every `currentPrice`, every other listing, and the users and
bids tables come out unchanged (`sweepMark` is exactly that per-row map). -/
theorem sweep_transitions_exactly_the_expired (s : DB) (now : Int)
    (h : (s.artworks.map (fun a => a.id)).Nodup) :
    processExpiredArtworks s now = { s with artworks := s.artworks.map (sweepMark s now) } := by
  rw [processExpiredArtworks_eq]
  congr 1
  refine List.map_congr_left (fun a ha => ?_)
  by_cases he : a.status = ArtworkStatus.ACTIVE ∧ a.endTime < now
  · have hmem : a.id ∈ ((s.artworks.filter (fun a =>
        decide (a.status = ArtworkStatus.ACTIVE ∧ a.endTime < now))).map (fun x => x.id)) :=
      List.mem_map_of_mem _ (List.mem_filter.2 ⟨ha, by simpa using he⟩)
    rw [if_pos hmem, sweepMark, if_pos he]
    rfl
  · have hnmem : ¬ a.id ∈ ((s.artworks.filter (fun a =>
        decide (a.status = ArtworkStatus.ACTIVE ∧ a.endTime < now))).map (fun x => x.id)) := by
      intro hmem
      obtain ⟨b, hb, hba⟩ := List.mem_map.1 hmem
      have hbf := List.mem_filter.1 hb
      have hbe : b.status = ArtworkStatus.ACTIVE ∧ b.endTime < now := by
        simpa using hbf.2
      have hab : b = a := List.inj_on_of_nodup_map h hbf.1 ha hba
      exact he (hab ▸ hbe)
    rw [if_neg hnmem, sweepMark, if_neg he]

/-- C4 witness: the sweep applied to `dbSweep` at time 1000, realizing
Scenario 2 (E1 expires with no bids) and Scenario 3 (S1 sells, its price
"200.00" untouched), with the still-running F1 untouched. -/
theorem sweep_transitions_exactly_the_expired_witness :
    processExpiredArtworks dbSweep 1000 =
      { users := [userFix "U1"],
        artworks := [{ awFix "E1" ArtworkStatus.ACTIVE "50.00" "50.00" 500 "U1" with
                         status := ArtworkStatus.EXPIRED, updatedAt := 1000 },
                     { awFix "S1" ArtworkStatus.ACTIVE "100.00" "200.00" 500 "U1" with
                         status := ArtworkStatus.SOLD, updatedAt := 1000 },
                     awFix "F1" ArtworkStatus.ACTIVE "10.00" "10.00" 5000 "U1"],
        bids := [bidFix "B1" "S1" "U3" "200.00" 10] } := by
  rw [sweep_transitions_exactly_the_expired dbSweep 1000 (by decide)]
  decide

/-- C8: the sweep is idempotent — a second run at the same clock reading,
with no interleaving operations, is the identity, because the first run
left no listing both ACTIVE and past its end time. -/
theorem sweep_idempotent (s : DB) (now : Int) :
    processExpiredArtworks (processExpiredArtworks s now) now = processExpiredArtworks s now := by
  refine processExpiredArtworks_of_none _ now (List.filter_eq_nil.2 (fun a ha hpa => ?_))
  rw [processExpiredArtworks_eq] at ha
  obtain ⟨b, hb, hba⟩ := List.mem_map.1 ha
  have hae : a.status = ArtworkStatus.ACTIVE ∧ a.endTime < now := by
    simpa using hpa
  by_cases hcond : b.id ∈ ((s.artworks.filter (fun a =>
      decide (a.status = ArtworkStatus.ACTIVE ∧ a.endTime < now))).map (fun x => x.id))
  · rw [if_pos hcond] at hba
    have : a.status = expiredOutcome s.bids b.id := by rw [← hba]
    rw [hae.1] at this
    unfold expiredOutcome at this
    by_cases hl : (s.bids.filter (fun x => decide (x.artworkId = b.id))).length > 0
    · rw [if_pos hl] at this
      exact ArtworkStatus.noConfusion this
    · rw [if_neg hl] at this
      exact ArtworkStatus.noConfusion this
  · rw [if_neg hcond] at hba
    subst hba
    exact hcond (List.mem_map_of_mem _ (List.mem_filter.2 ⟨hb, by simpa using hae⟩))

/-! ## Claim C5: deletion and orphaned bids -/

/-- The account-deletion loop over the owned artworks, in closed form: it
removes exactly the bids on and the rows of the artworks in the list. -/
theorem foldl_deleteOwnedStep (L : List Artwork) (db : DB) :
    L.foldl deleteOwnedStep db =
      { db with
        bids := db.bids.filter (fun b => decide (¬ b.artworkId ∈ L.map (fun a => a.id))),
        artworks := db.artworks.filter (fun x => decide (¬ x.id ∈ L.map (fun a => a.id))) } := by
  induction L generalizing db with
  | nil => simp
  | cons x L ih =>
    rw [List.foldl_cons, ih]
    cases db with
    | mk us aws bs =>
      simp only [deleteOwnedStep, List.filter_filter, List.map_cons, List.mem_cons]
      congr 1
      · exact List.filter_congr (fun a _ => by
          by_cases h1 : a.id = x.id <;> by_cases h2 : a.id ∈ L.map (fun a => a.id) <;>
            simp [h1, h2])
      · exact List.filter_congr (fun b _ => by
          by_cases h1 : b.artworkId = x.id <;>
            by_cases h2 : b.artworkId ∈ L.map (fun a => a.id) <;> simp [h1, h2])

/-- `deleteUserAccount` in closed form: the surviving bids are those neither
placed by the user nor on one of the user's artworks; the surviving
artworks are those whose id is not among the user's artworks; the user row
is gone. -/
theorem deleteUserAccount_eq (s : DB) (uid : String) (f : Bool) :
    deleteUserAccount s uid f =
      { users := s.users.filter (fun u => decide (¬ u.id = uid)),
        artworks := s.artworks.filter (fun x => decide (¬ x.id ∈
          (s.artworks.filter (fun a => decide (a.artistId = uid))).map (fun a => a.id))),
        bids := (s.bids.filter (fun b => decide (¬ b.bidderId = uid))).filter
          (fun b => decide (¬ b.artworkId ∈
            (s.artworks.filter (fun a => decide (a.artistId = uid))).map (fun a => a.id))) } := by
  unfold deleteUserAccount
  dsimp only
  rw [foldl_deleteOwnedStep]

/-- C5 counterexample: `deleteArtwork` — the operation behind both the
owner and the admin listing-delete routes — removes only the artwork row.
Deleting the bid-carrying listing of `dbOwned` leaves its bid behind,
referencing a listing that no longer exists, so the claim that every
deletion path removes dependent bids with the listing fails. -/
theorem delete_artwork_leaves_orphan_bid :
    noOrphanBids dbOwned ∧ ¬ noOrphanBids (deleteArtwork dbOwned "A3") ∧
    (deleteArtwork dbOwned "A3").artworks = [] ∧
    (deleteArtwork dbOwned "A3").bids.map (fun b => b.artworkId) = ["A3"] := by
  refine ⟨by decide, by decide, by decide, by decide⟩

/-- C5 (amended): the account-deletion cascade does order its deletions so
that no orphaned bid remains — it removes the user's bids, then the bids on
each owned listing before the listing itself — so it preserves referential
integrity; but the listing-delete operation `deleteArtwork` removes only
the listing row and leaves its bids in place (the owner route reaches it
only with zero bids; the admin route can orphan bids). -/
theorem delete_user_account_no_orphans (s : DB) (uid : String) (f : Bool)
    (h : noOrphanBids s) : noOrphanBids (deleteUserAccount s uid f) := by
  rw [deleteUserAccount_eq]
  intro b hb
  have hb1 := List.mem_filter.1 hb
  have hb2 := List.mem_filter.1 hb1.1
  obtain ⟨a, ha, haid⟩ := h b hb2.1
  refine ⟨a, List.mem_filter.2 ⟨ha, ?_⟩, haid⟩
  rw [haid]
  exact hb1.2

/-- C5 witness: the cascade applied to the state with a bid-carrying
listing owned by U2. -/
theorem delete_user_account_no_orphans_witness :
    noOrphanBids (deleteUserAccount dbOwned "U2" true) :=
  delete_user_account_no_orphans dbOwned "U2" true (by decide)

/-! ## Claim C6: listing creation -/

/-- C6 counterexample: the claim says creation fails with `ValidationError`
when `startingPrice ≤ 0` or the end time is not in the future. The zod
schema checks only that the textual fields are nonempty: the form with
startingPrice "-5.00" and an end time in the year 2000 passes validation,
and `createArtwork` stores the listing, ACTIVE at price "-5.00". -/
theorem create_listing_accepts_invalid_input :
    insertArtworkSchemaParse badForm = some badForm ∧
    decValue badForm.startingPrice = some ⟨-5, 0⟩ ∧
    (⟨-5, 0⟩ : Dec).toRat ≤ 0 ∧
    badForm.endTime < 1760140800000 ∧
    ((createArtwork ⟨[], [], []⟩ badForm "A1" 1760140800000).1.artworks.map
        (fun a => (a.status, a.currentPrice, a.isActive))
      = [(ArtworkStatus.ACTIVE, "-5.00", true)]) := by
  refine ⟨by decide, by decide, by norm_num [Dec.toRat], by decide, by decide⟩

/-- C6 (amended): creation of a well-shaped form succeeds and returns a
listing with the claimed shape — status as submitted (the route always
submits ACTIVE), `currentPrice = startingPrice`, `isActive` true — but the
only validation is nonemptiness of the textual fields: no check of
`startingPrice > 0` or of the end time being in the future exists, and no
`ValidationError` is ever raised for them. -/
theorem create_listing_success_shape :
    ∀ (d : InsertArtwork) (s : DB) (i : String) (n : Int),
      1 ≤ d.title.length → 1 ≤ d.description.length → 1 ≤ d.imageUrl.length →
      1 ≤ d.imagePublicId.length → 1 ≤ d.category.length → 1 ≤ d.artistId.length →
      insertArtworkSchemaParse d = some d ∧
      ∃ a : Artwork, (createArtwork s d i n).1.artworks = s.artworks ++ [a] ∧
        a.status = d.status ∧ a.currentPrice = d.startingPrice ∧
        a.startingPrice = d.startingPrice ∧ a.isActive = true ∧ a.endTime = d.endTime := by
  intro d s i n h1 h2 h3 h4 h5 h6
  constructor
  · unfold insertArtworkSchemaParse
    rw [if_pos ⟨h1, h2, h3, h4, h5, h6⟩]
  · exact ⟨_, rfl, rfl, rfl, rfl, rfl, rfl⟩

/-- C6 witness: the amended statement applied to the invalid-but-accepted
form, making the absence of price and end-time validation concrete. -/
theorem create_listing_success_shape_witness :
    insertArtworkSchemaParse badForm = some badForm ∧
    ∃ a : Artwork, (createArtwork dbOpen badForm "A7" 0).1.artworks = dbOpen.artworks ++ [a] ∧
      a.status = badForm.status ∧ a.currentPrice = badForm.startingPrice ∧
      a.startingPrice = badForm.startingPrice ∧ a.isActive = true ∧ a.endTime = badForm.endTime :=
  create_listing_success_shape badForm dbOpen "A7" 0 (by decide) (by decide) (by decide)
    (by decide) (by decide) (by decide)

/-! ## Claim C9: the money formatter

The three parts of the claim are settled through exact evaluation of the
`parseFloat`/`toFixed` model. The work is in the idempotence part, which
needs the parser to read every string the formatter can emit back to the
value it printed; the lemmas below build that up from digit strings. -/

theorem digit_class (c : Char) (h : isDigitChar c = true) :
    isWsChar c = false ∧ 48 ≤ c.toNat ∧ c.toNat ≤ 57 := by
  simp only [isDigitChar, Bool.and_eq_true, decide_eq_true_eq] at h
  refine ⟨Bool.eq_false_iff.2 (fun hw => ?_), h.1, h.2⟩
  simp only [isWsChar, Bool.or_eq_true, Bool.and_eq_true, decide_eq_true_eq, beq_iff_eq] at hw
  omega

theorem ne_of_digit {c x : Char} (h : isDigitChar c = true)
    (hx : isDigitChar x = false) : ¬ c = x := by
  intro he
  rw [he, hx] at h
  cases h

theorem takeWhile_append_all {p : Char → Bool} (l r : List Char)
    (h : ∀ c ∈ l, p c = true) : (l ++ r).takeWhile p = l ++ r.takeWhile p := by
  induction l with
  | nil => simp
  | cons c l ih =>
    rw [List.cons_append, List.takeWhile_cons, h c (List.mem_cons_self c l), if_pos rfl,
      ih (fun c hc => h c (List.mem_cons_of_mem _ hc))]
    rfl

theorem dropWhile_append_all {p : Char → Bool} (l r : List Char)
    (h : ∀ c ∈ l, p c = true) : (l ++ r).dropWhile p = r.dropWhile p := by
  induction l with
  | nil => simp
  | cons c l ih =>
    simp only [List.cons_append, List.dropWhile_cons, h c (List.mem_cons_self c l), if_true]
    exact ih (fun c hc => h c (List.mem_cons_of_mem _ hc))

theorem takeWhile_all {p : Char → Bool} (l : List Char)
    (h : ∀ c ∈ l, p c = true) : l.takeWhile p = l := by
  have := takeWhile_append_all (p := p) l [] h
  simpa using this

theorem dropWhile_all {p : Char → Bool} (l : List Char)
    (h : ∀ c ∈ l, p c = true) : l.dropWhile p = [] := by
  have := dropWhile_append_all (p := p) l [] h
  simpa using this

theorem takeWhile_cons_neg {p : Char → Bool} (c : Char) (r : List Char)
    (h : p c = false) : (c :: r).takeWhile p = [] := by
  simp [List.takeWhile_cons, h]

theorem dropWhile_cons_neg {p : Char → Bool} (c : Char) (r : List Char)
    (h : p c = false) : (c :: r).dropWhile p = c :: r := by
  simp [List.dropWhile_cons, h]

theorem readNatFrom_append (a : Nat) (l r : List Char) :
    readNatFrom a (l ++ r) = readNatFrom (readNatFrom a l) r :=
  List.foldl_append _ _ _ _

theorem readNatFrom_eq (a : Nat) (l : List Char) :
    readNatFrom a l = a * 10 ^ l.length + readNat l := by
  induction l generalizing a with
  | nil => simp [readNatFrom, readNat]
  | cons c l ih =>
    show readNatFrom (10 * a + digitVal c) l = a * 10 ^ (c :: l).length +
      readNatFrom (10 * 0 + digitVal c) l
    rw [ih, ih]
    simp only [List.length_cons, pow_succ]
    ring

theorem readNat_append (l r : List Char) :
    readNat (l ++ r) = readNat l * 10 ^ r.length + readNat r := by
  rw [readNat, readNatFrom_append, readNatFrom_eq]
  rfl

theorem readNat_replicate_zero (z : Nat) : readNat (List.replicate z '0') = 0 := by
  induction z with
  | zero => rfl
  | succ z ih =>
    show readNatFrom (10 * 0 + digitVal '0') (List.replicate z '0') = 0
    exact ih

theorem digitChar_isDigit (d : Nat) (h : d < 10) : isDigitChar (digitChar d) = true := by
  interval_cases d <;> decide

theorem digitVal_digitChar (d : Nat) (h : d < 10) : digitVal (digitChar d) = d := by
  interval_cases d <;> decide

theorem natDigitsAux_acc (f n : Nat) (acc : List Char) :
    natDigitsAux f n acc = natDigitsAux f n [] ++ acc := by
  induction f generalizing n acc with
  | zero => simp [natDigitsAux]
  | succ f ih =>
    simp only [natDigitsAux]
    split
    · simp
    · rw [ih, ih ((n / 10)) [digitChar (n % 10)], List.append_assoc]
      rfl

theorem natDigitsAux_fuel (f₁ f₂ n : Nat) (h₁ : n < f₁) (h₂ : n < f₂) :
    natDigitsAux f₁ n [] = natDigitsAux f₂ n [] := by
  induction n using Nat.strong_induction_on generalizing f₁ f₂ with
  | _ n ih =>
    match f₁, f₂ with
    | f₁ + 1, f₂ + 1 =>
      simp only [natDigitsAux]
      split
      · rfl
      · rw [natDigitsAux_acc f₁, natDigitsAux_acc f₂,
          ih (n / 10) (Nat.div_lt_self (by omega) (by omega)) f₁ f₂ (by omega) (by omega)]

theorem natDigits_small (n : Nat) (h : n < 10) : natDigits n = [digitChar n] := by
  simp [natDigits, natDigitsAux, h]

theorem natDigits_step (n : Nat) (h : 10 ≤ n) :
    natDigits n = natDigits (n / 10) ++ [digitChar (n % 10)] := by
  show natDigitsAux (n + 1) n [] = _
  simp only [natDigitsAux, Nat.not_lt.2 h, if_false]
  rw [natDigitsAux_acc, natDigitsAux_fuel n (n / 10 + 1) (n / 10)
    (Nat.div_lt_self (by omega) (by omega)) (by omega)]
  rfl

theorem natDigits_all (n : Nat) : ∀ c ∈ natDigits n, isDigitChar c = true := by
  induction n using Nat.strong_induction_on with
  | _ n ih =>
    by_cases h : n < 10
    · rw [natDigits_small n h]
      intro c hc
      rw [List.mem_singleton] at hc
      rw [hc]
      exact digitChar_isDigit n h
    · rw [natDigits_step n (by omega)]
      intro c hc
      rcases List.mem_append.1 hc with hc | hc
      · exact ih (n / 10) (Nat.div_lt_self (by omega) (by omega)) c hc
      · rw [List.mem_singleton] at hc
        rw [hc]
        exact digitChar_isDigit _ (Nat.mod_lt _ (by omega))

theorem natDigits_ne_nil (n : Nat) : natDigits n ≠ [] := by
  by_cases h : n < 10
  · rw [natDigits_small n h]
    simp
  · rw [natDigits_step n (by omega)]
    simp

theorem readNat_natDigits (n : Nat) : readNat (natDigits n) = n := by
  induction n using Nat.strong_induction_on with
  | _ n ih =>
    by_cases h : n < 10
    · rw [natDigits_small n h]
      show 10 * 0 + digitVal (digitChar n) = n
      rw [digitVal_digitChar n h]
      omega
    · rw [natDigits_step n (by omega), readNat_append,
        ih (n / 10) (Nat.div_lt_self (by omega) (by omega))]
      show n / 10 * 10 ^ 1 + (10 * 0 + digitVal (digitChar (n % 10))) = n
      rw [digitVal_digitChar _ (Nat.mod_lt _ (by omega))]
      omega

theorem parseSign_minus (r : List Char) : parseSign ('-' :: r) = (true, r) := rfl

theorem parseSign_plus (r : List Char) : parseSign ('+' :: r) = (false, r) := rfl

theorem parseSign_other (c : Char) (r : List Char) (h1 : ¬ c = '+') (h2 : ¬ c = '-') :
    parseSign (c :: r) = (false, c :: r) := by
  simp [parseSign, h1, h2]

theorem infinity_isPrefixOf_false (c : Char) (r : List Char) (h : ¬ c = 'I') :
    (("Infinity".toList).isPrefixOf (c :: r)) = false := by
  have he : "Infinity".toList = 'I' :: "nfinity".toList := rfl
  have h' : ('I' == c) = false := beq_eq_false_iff_ne.2 (fun heq => h heq.symm)
  rw [he]
  simp [List.isPrefixOf, h']

theorem parseExpPart_not_e (c : Char) (r : List Char) (h1 : ¬ c = 'e') (h2 : ¬ c = 'E') :
    parseExpPart (c :: r) = 0 := by
  simp [parseExpPart, h1, h2]

theorem parseExpPart_eplus (ds : List Char) (hds : ∀ c ∈ ds, isDigitChar c = true)
    (hne : ¬ ds = []) : parseExpPart ('e' :: '+' :: ds) = (readNat ds : Int) := by
  unfold parseExpPart
  dsimp only
  rw [if_pos (Or.inl rfl), parseSign_plus]
  dsimp only
  rw [takeWhile_all ds hds, if_neg hne, if_neg (by simp)]

theorem parseMantissa_point (a b r : List Char)
    (ha : ∀ c ∈ a, isDigitChar c = true) (hb : ∀ c ∈ b, isDigitChar c = true)
    (hr1 : r.takeWhile isDigitChar = []) (hr2 : r.dropWhile isDigitChar = r)
    (hne : ¬ (a = [] ∧ b = [])) :
    parseMantissa (a ++ '.' :: (b ++ r)) =
      some (⟨(readNat a : Int) * 10 ^ b.length + (readNat b : Int), b.length⟩, r) := by
  unfold parseMantissa
  rw [takeWhile_append_all a _ ha, dropWhile_append_all a _ ha,
    takeWhile_cons_neg '.' _ (by decide), dropWhile_cons_neg '.' _ (by decide),
    List.append_nil]
  dsimp only
  rw [if_pos rfl]
  dsimp only
  rw [takeWhile_append_all b r hb, hr1, List.append_nil, dropWhile_append_all b r hb, hr2]
  rw [if_neg hne]

theorem parseMantissa_nodot (a r : List Char)
    (ha : ∀ c ∈ a, isDigitChar c = true) (hane : ¬ a = [])
    (hr1 : r.takeWhile isDigitChar = []) (hr2 : r.dropWhile isDigitChar = r)
    (hdot : ∀ r', ¬ r = '.' :: r') :
    parseMantissa (a ++ r) = some (⟨(readNat a : Int), 0⟩, r) := by
  unfold parseMantissa
  rw [takeWhile_append_all a _ ha, hr1, List.append_nil, dropWhile_append_all a _ ha, hr2]
  dsimp only
  cases r with
  | nil =>
    dsimp only
    rw [if_neg (fun hc => hane hc.1)]
    simp [readNat, readNatFrom]
  | cons c r' =>
    dsimp only
    have hcne : ¬ c = '.' := fun hc => hdot r' (by rw [hc])
    rw [if_neg hcne]
    dsimp only
    rw [if_neg (fun hc => hane hc.1)]
    simp [readNat, readNatFrom]

theorem jsParseFloat_mk_digit (c : Char) (r : List Char) (h : isDigitChar c = true) :
    jsParseFloat (String.mk (c :: r)) = parseAfterSign false (c :: r) := by
  unfold jsParseFloat
  show parseAfterSign (parseSign ((c :: r).dropWhile isWsChar)).1
    (parseSign ((c :: r).dropWhile isWsChar)).2 = _
  rw [dropWhile_cons_neg c r (digit_class c h).1,
    parseSign_other c r (ne_of_digit h (by decide)) (ne_of_digit h (by decide))]

theorem jsParseFloat_mk_minus_digit (c : Char) (r : List Char) (h : isDigitChar c = true) :
    jsParseFloat (String.mk ('-' :: c :: r)) = parseAfterSign true (c :: r) := by
  unfold jsParseFloat
  show parseAfterSign (parseSign (('-' :: c :: r).dropWhile isWsChar)).1
    (parseSign (('-' :: c :: r).dropWhile isWsChar)).2 = _
  rw [dropWhile_cons_neg '-' _ (by decide), parseSign_minus]

theorem parseAfterSign_eval (neg : Bool) (c : Char) (r : List Char)
    (h : isDigitChar c = true) (m : Dec) (rest : List Char)
    (hm : parseMantissa (c :: r) = some (m, rest)) :
    parseAfterSign neg (c :: r) =
      some (.fin (decCanon
        (if neg then -(dMulPow10 m (parseExpPart rest)).num
         else (dMulPow10 m (parseExpPart rest)).num)
        (dMulPow10 m (parseExpPart rest)).scale)) := by
  unfold parseAfterSign
  rw [infinity_isPrefixOf_false c r (ne_of_digit h (by decide))]
  rw [if_neg (by simp), hm]

theorem decCanon_canonical (s : Nat) : ∀ n : Int, dCanonical (decCanon n s) := by
  induction s with
  | zero => intro n h; exact absurd rfl h
  | succ t ih =>
    intro n
    show dCanonical (if n % 10 = 0 then decCanon (n / 10) t else ⟨n, t + 1⟩)
    by_cases h : n % 10 = 0
    · rw [if_pos h]
      exact ih (n / 10)
    · rw [if_neg h]
      exact fun _ => h

theorem decCanon_succ (n : Int) (t : Nat) :
    decCanon n (t + 1) = if n % 10 = 0 then decCanon (n / 10) t else ⟨n, t + 1⟩ := rfl

theorem decCanon_neg (s : Nat) : ∀ n : Int,
    decCanon (-n) s = ⟨-(decCanon n s).num, (decCanon n s).scale⟩ := by
  induction s with
  | zero => intro n; rfl
  | succ t ih =>
    intro n
    rw [decCanon_succ, decCanon_succ]
    by_cases h : n % 10 = 0
    · rw [if_pos (show -n % 10 = 0 from by omega), if_pos h,
        show -n / 10 = -(n / 10) from by omega, ih]
    · rw [if_neg (show ¬ -n % 10 = 0 from by omega), if_neg h]

theorem decCanon_cast_two (n : Nat) :
    decCanon (n : Int) 2 =
      if n % 100 = 0 then ⟨((n / 100 : Nat) : Int), 0⟩
      else if n % 10 = 0 then ⟨((n / 10 : Nat) : Int), 1⟩
      else ⟨(n : Int), 2⟩ := by
  show (if (n : Int) % 10 = 0 then decCanon ((n : Int) / 10) 1 else ⟨(n : Int), 2⟩) = _
  by_cases h1 : n % 10 = 0
  · rw [if_pos (by omega), show ((n : Int) / 10) = ((n / 10 : Nat) : Int) from by omega]
    show (if ((n / 10 : Nat) : Int) % 10 = 0
        then decCanon (((n / 10 : Nat) : Int) / 10) 0 else ⟨((n / 10 : Nat) : Int), 1⟩) = _
    by_cases h2 : n % 100 = 0
    · rw [if_pos (by omega), if_pos h2,
        show (((n / 10 : Nat) : Int) / 10) = ((n / 100 : Nat) : Int) from by omega]
      rfl
    · rw [if_neg (by omega), if_neg h2, if_pos h1]
  · rw [if_neg (by omega), if_neg (by omega), if_neg h1]

/-- Unfolding of `toFixed2` on a finite value, with the rounded hundredths
`n` and the branch condition explicit. -/
theorem toFixed2_fin (d : Dec) :
    toFixed2 (.fin d) =
      if 10 ^ 23 ≤ (200 * d.num.natAbs + 10 ^ d.scale) / (2 * 10 ^ d.scale)
      then String.mk ((if d.num < 0 then ['-'] else []) ++ jsToStringPos d.num.natAbs d.scale)
      else String.mk ((if d.num < 0 then ['-'] else []) ++
        fixedString ((200 * d.num.natAbs + 10 ^ d.scale) / (2 * 10 ^ d.scale))) := rfl

theorem toFixed2_canon_fixed (n : Nat) (hn : n < 10 ^ 23) :
    toFixed2 (.fin (decCanon (n : Int) 2)) = String.mk (fixedString n) := by
  rw [decCanon_cast_two]
  by_cases h2 : n % 100 = 0
  · rw [if_pos h2, toFixed2_fin]
    simp only [Int.natAbs_ofNat]
    rw [if_neg (by omega), if_neg (by omega), List.nil_append,
      show (200 * (n / 100) + 10 ^ 0) / (2 * 10 ^ 0) = n from by norm_num; omega]
  · by_cases h1 : n % 10 = 0
    · rw [if_neg h2, if_pos h1, toFixed2_fin]
      simp only [Int.natAbs_ofNat]
      rw [if_neg (by omega), if_neg (by omega), List.nil_append,
        show (200 * (n / 10) + 10 ^ 1) / (2 * 10 ^ 1) = n from by norm_num; omega]
    · rw [if_neg h2, if_neg h1, toFixed2_fin]
      simp only [Int.natAbs_ofNat]
      rw [if_neg (by omega), if_neg (by omega), List.nil_append,
        show (200 * n + 10 ^ 2) / (2 * 10 ^ 2) = n from by norm_num; omega]

theorem toFixed2_canon_fixed_neg (n : Nat) (hn : n < 10 ^ 23) (hpos : 0 < n) :
    toFixed2 (.fin (decCanon (-(n : Int)) 2)) = String.mk ('-' :: fixedString n) := by
  rw [decCanon_neg, decCanon_cast_two]
  by_cases h2 : n % 100 = 0
  · rw [if_pos h2, toFixed2_fin]
    simp only [Int.natAbs_neg, Int.natAbs_ofNat]
    rw [if_neg (by omega), if_pos (by omega),
      show (200 * (n / 100) + 10 ^ 0) / (2 * 10 ^ 0) = n from by norm_num; omega]
    rfl
  · by_cases h1 : n % 10 = 0
    · rw [if_neg h2, if_pos h1, toFixed2_fin]
      simp only [Int.natAbs_neg, Int.natAbs_ofNat]
      rw [if_neg (by omega), if_pos (by omega),
        show (200 * (n / 10) + 10 ^ 1) / (2 * 10 ^ 1) = n from by norm_num; omega]
      rfl
    · rw [if_neg h2, if_neg h1, toFixed2_fin]
      simp only [Int.natAbs_neg, Int.natAbs_ofNat]
      rw [if_neg (by omega), if_pos (by omega),
        show (200 * n + 10 ^ 2) / (2 * 10 ^ 2) = n from by norm_num; omega]
      rfl

theorem natDigits_len_two (n : Nat) (h1 : 10 ≤ n) (h2 : n < 100) :
    natDigits n = [digitChar (n / 10), digitChar (n % 10)] := by
  rw [natDigits_step n h1, natDigits_small (n / 10) (by omega)]
  rfl

/-- The shape of the `toFixed(2)` body: integer digits (a single zero when
`n < 100`), the point, then the last two digits of `n`. -/
theorem fixedString_eq (n : Nat) :
    fixedString n = (if n < 100 then ['0'] else natDigits (n / 100)) ++
      '.' :: [digitChar (n % 100 / 10), digitChar (n % 10)] := by
  unfold fixedString
  by_cases h1 : n < 10
  · rw [natDigits_small n h1]
    dsimp only
    rw [if_pos (by norm_num), if_pos (by omega),
      show n % 100 / 10 = 0 from by omega, show n % 10 = n from by omega]
    rfl
  · by_cases h2 : n < 100
    · rw [natDigits_len_two n (by omega) h2]
      dsimp only
      rw [if_pos (by norm_num), if_pos h2,
        show n % 100 / 10 = n / 10 from by omega, show n % 10 = n % 10 from rfl]
      rfl
    · have hd : natDigits n = natDigits (n / 100) ++
          [digitChar (n / 10 % 10), digitChar (n % 10)] := by
        rw [natDigits_step n (by omega), natDigits_step (n / 10) (by omega),
          Nat.div_div_eq_div_mul, List.append_assoc]
        rfl
      rw [hd]
      dsimp only
      have hlen : (natDigits (n / 100) ++
          [digitChar (n / 10 % 10), digitChar (n % 10)]).length =
          (natDigits (n / 100)).length + 2 := by
        rw [List.length_append]
        rfl
      have hpos : 1 ≤ (natDigits (n / 100)).length :=
        List.length_pos.2 (natDigits_ne_nil _)
      rw [if_neg (by omega), if_neg h2]
      rw [show (natDigits (n / 100) ++
            [digitChar (n / 10 % 10), digitChar (n % 10)]).length - 2 =
          (natDigits (n / 100)).length from by omega]
      rw [List.take_left, List.drop_left,
        show n % 100 / 10 = n / 10 % 10 from by omega]

theorem intPart_ne_nil (n : Nat) : (if n < 100 then ['0'] else natDigits (n / 100)) ≠ [] := by
  split
  · simp
  · exact natDigits_ne_nil _

theorem intPart_digits (n : Nat) :
    ∀ c ∈ (if n < 100 then ['0'] else natDigits (n / 100)), isDigitChar c = true := by
  split
  · intro c hc
    rw [List.mem_singleton] at hc
    rw [hc]
    decide
  · exact natDigits_all _

theorem readNat_intPart (n : Nat) :
    readNat (if n < 100 then ['0'] else natDigits (n / 100)) = n / 100 := by
  split
  · show 10 * 0 + digitVal '0' = n / 100
    have : digitVal '0' = 0 := by decide
    omega
  · exact readNat_natDigits _

theorem readNat_two_digits (x y : Nat) (hx : x < 10) (hy : y < 10) :
    readNat [digitChar x, digitChar y] = 10 * x + y := by
  show 10 * (10 * 0 + digitVal (digitChar x)) + digitVal (digitChar y) = 10 * x + y
  rw [digitVal_digitChar x hx, digitVal_digitChar y hy]
  omega

/-- The fraction digits of `fixedString n`. -/
theorem fixedString_parseMantissa (n : Nat) :
    parseMantissa (fixedString n) =
      some (⟨(n : Int), 2⟩, []) := by
  obtain ⟨c, a', hca⟩ := List.exists_cons_of_ne_nil (intPart_ne_nil n)
  have hm := parseMantissa_point (if n < 100 then ['0'] else natDigits (n / 100))
    [digitChar (n % 100 / 10), digitChar (n % 10)] [] (intPart_digits n)
    (by
      intro x hx
      rcases List.mem_cons.1 hx with h | h
      · rw [h]; exact digitChar_isDigit _ (by omega)
      · rw [List.mem_singleton] at h
        rw [h]; exact digitChar_isDigit _ (by omega))
    rfl rfl (fun hc => (intPart_ne_nil n) hc.1)
  rw [List.append_nil] at hm
  rw [fixedString_eq n, hm]
  have hb : readNat [digitChar (n % 100 / 10), digitChar (n % 10)] = n % 100 := by
    rw [readNat_two_digits _ _ (by omega) (by omega)]
    omega
  rw [hb, readNat_intPart]
  have : ((n / 100 : Nat) : Int) * 10 ^ 2 + ((n % 100 : Nat) : Int) = (n : Int) := by
    push_cast
    omega
  simp only [List.length_cons, List.length_nil]
  rw [show (0 + 1 + 1 : Nat) = 2 from rfl] at *
  rw [this]

theorem dMulPow10_zero (d : Dec) : dMulPow10 d 0 = ⟨d.num, d.scale⟩ := by
  unfold dMulPow10
  rw [if_pos le_rfl]
  simp

theorem jsParseFloat_fixedString (n : Nat) :
    jsParseFloat (String.mk (fixedString n)) = some (.fin (decCanon (n : Int) 2)) := by
  obtain ⟨c, a', hca⟩ := List.exists_cons_of_ne_nil (intPart_ne_nil n)
  have hc : isDigitChar c = true :=
    intPart_digits n c (by rw [hca]; exact List.mem_cons_self c a')
  have hshape : fixedString n =
      c :: (a' ++ '.' :: [digitChar (n % 100 / 10), digitChar (n % 10)]) := by
    rw [fixedString_eq n, hca]
    rfl
  have hm : parseMantissa (c :: (a' ++ '.' :: [digitChar (n % 100 / 10), digitChar (n % 10)]))
      = some (⟨(n : Int), 2⟩, []) := by
    have h0 := fixedString_parseMantissa n
    rw [hshape] at h0
    exact h0
  rw [hshape, jsParseFloat_mk_digit c _ hc,
    parseAfterSign_eval false c _ hc ⟨(n : Int), 2⟩ [] hm]
  rw [show parseExpPart [] = 0 from rfl, dMulPow10_zero]
  simp

theorem jsParseFloat_fixedString_neg (n : Nat) :
    jsParseFloat (String.mk ('-' :: fixedString n)) = some (.fin (decCanon (-(n : Int)) 2)) := by
  obtain ⟨c, a', hca⟩ := List.exists_cons_of_ne_nil (intPart_ne_nil n)
  have hc : isDigitChar c = true :=
    intPart_digits n c (by rw [hca]; exact List.mem_cons_self c a')
  have hshape : fixedString n =
      c :: (a' ++ '.' :: [digitChar (n % 100 / 10), digitChar (n % 10)]) := by
    rw [fixedString_eq n, hca]
    rfl
  have hm : parseMantissa (c :: (a' ++ '.' :: [digitChar (n % 100 / 10), digitChar (n % 10)]))
      = some (⟨(n : Int), 2⟩, []) := by
    have h0 := fixedString_parseMantissa n
    rw [hshape] at h0
    exact h0
  rw [hshape, jsParseFloat_mk_minus_digit c _ hc,
    parseAfterSign_eval true c _ hc ⟨(n : Int), 2⟩ [] hm]
  rw [show parseExpPart [] = 0 from rfl, dMulPow10_zero]
  simp

theorem reformat_fixedString (n : Nat) (hn : n < 10 ^ 23) :
    formatDecimal (String.mk (fixedString n)) = String.mk (fixedString n) := by
  unfold formatDecimal
  rw [jsParseFloat_fixedString n]
  exact toFixed2_canon_fixed n hn

theorem reformat_fixedString_neg (n : Nat) (hn : n < 10 ^ 23) (hpos : 0 < n) :
    formatDecimal (String.mk ('-' :: fixedString n)) = String.mk ('-' :: fixedString n) := by
  unfold formatDecimal
  rw [jsParseFloat_fixedString_neg n]
  exact toFixed2_canon_fixed_neg n hn hpos

theorem stripZerosAux_spec (fuel : Nat) : ∀ m ≤ fuel,
    (stripZerosAux fuel m).1 * 10 ^ (stripZerosAux fuel m).2 = m ∧
    (m ≠ 0 → ¬ (stripZerosAux fuel m).1 % 10 = 0 ∧ (stripZerosAux fuel m).1 ≠ 0) := by
  induction fuel with
  | zero =>
    intro m hm
    have : m = 0 := by omega
    subst this
    exact ⟨by simp [stripZerosAux], fun h => absurd rfl h⟩
  | succ f ih =>
    intro m hm
    rw [show stripZerosAux (f + 1) m = if m ≠ 0 ∧ m % 10 = 0
        then ((stripZerosAux f (m / 10)).1, (stripZerosAux f (m / 10)).2 + 1)
        else (m, 0) from rfl]
    by_cases h : m ≠ 0 ∧ m % 10 = 0
    · rw [if_pos h]
      have hrec := ih (m / 10) (by omega)
      dsimp only
      refine ⟨?_, fun _ => hrec.2 (by omega)⟩
      rw [pow_succ, ← Nat.mul_assoc, hrec.1]
      omega
    · rw [if_neg h]
      exact ⟨by simp, fun hm0 => ⟨fun h10 => h ⟨hm0, h10⟩, hm0⟩⟩

theorem stripZeros_spec (m : Nat) :
    (stripZeros m).1 * 10 ^ (stripZeros m).2 = m ∧
    (m ≠ 0 → ¬ (stripZeros m).1 % 10 = 0 ∧ (stripZeros m).1 ≠ 0) :=
  stripZerosAux_spec m m le_rfl

theorem natDigits_len_bound (m : Nat) (h : m ≠ 0) :
    10 ^ ((natDigits m).length - 1) ≤ m ∧ m < 10 ^ (natDigits m).length := by
  induction m using Nat.strong_induction_on with
  | _ m ih =>
    by_cases hs : m < 10
    · rw [natDigits_small m hs]
      simpa using by omega
    · rw [natDigits_step m (by omega)]
      have h0 : m / 10 ≠ 0 := by omega
      have hb := ih (m / 10) (Nat.div_lt_self (by omega) (by omega)) h0
      have hk : 1 ≤ (natDigits (m / 10)).length :=
        List.length_pos.2 (natDigits_ne_nil _)
      rw [List.length_append]
      constructor
      · calc 10 ^ ((natDigits (m / 10)).length + [digitChar (m % 10)].length - 1)
            = 10 ^ ((natDigits (m / 10)).length - 1) * 10 := by
              rw [← pow_succ]
              congr 1
              simp
              omega
        _ ≤ m / 10 * 10 := by exact Nat.mul_le_mul_right 10 hb.1
        _ ≤ m := by omega
      · calc m < (m / 10 + 1) * 10 := by omega
        _ ≤ 10 ^ (natDigits (m / 10)).length * 10 := by
              exact Nat.mul_le_mul_right 10 (by omega)
        _ = 10 ^ ((natDigits (m / 10)).length + [digitChar (m % 10)].length) := by
              rw [← pow_succ]
              rfl

theorem decCanon_eq_self (n : Int) (s : Nat) (h : s ≠ 0 → ¬ n % 10 = 0) :
    decCanon n s = ⟨n, s⟩ := by
  cases s with
  | zero => rfl
  | succ t => rw [decCanon_succ, if_neg (h (by omega))]

theorem decCanon_mul_pow (m : Int) (hm : ¬ m % 10 = 0) :
    ∀ (s E : Nat), decCanon (m * 10 ^ E) s =
      if s ≤ E then ⟨m * 10 ^ (E - s), 0⟩ else ⟨m, s - E⟩ := by
  intro s
  induction s with
  | zero =>
    intro E
    rw [if_pos (Nat.zero_le E)]
    rfl
  | succ t ih =>
    intro E
    rw [decCanon_succ]
    cases E with
    | zero =>
      rw [if_neg (by omega), if_neg (by simpa using hm)]
      simp
    | succ e =>
      have hdvd : (m * 10 ^ (e + 1)) % 10 = 0 := by
        have : (10 : Int) ∣ m * 10 ^ (e + 1) := ⟨m * 10 ^ e, by ring⟩
        omega
      rw [if_pos hdvd,
        show m * 10 ^ (e + 1) / 10 = m * 10 ^ e from by
          rw [pow_succ, ← mul_assoc]
          exact Int.mul_ediv_cancel _ (by norm_num),
        ih e]
      by_cases hte : t ≤ e
      · rw [if_pos hte, if_pos (by omega), Nat.succ_sub_succ]
      · rw [if_neg hte, if_neg (by omega), Nat.succ_sub_succ]

/-- Parsing a printed form with no decimal point: digits, trailing zeros,
then a non-numeric remainder carrying the exponent `E`. -/
theorem parseAfterSign_nodot (m z E : Nat) (r : List Char) (hm0 : m ≠ 0)
    (hr1 : r.takeWhile isDigitChar = []) (hr2 : r.dropWhile isDigitChar = r)
    (hdot : ∀ r', ¬ r = '.' :: r') (hE : parseExpPart r = (E : Int)) :
    ∃ c rest, natDigits m ++ (List.replicate z '0' ++ r) = c :: rest ∧
      isDigitChar c = true ∧
      ∀ neg : Bool, parseAfterSign neg (c :: rest) =
        some (.fin ⟨(if neg then -(((m * 10 ^ z : Nat) : Int) * 10 ^ E)
          else ((m * 10 ^ z : Nat) : Int) * 10 ^ E), 0⟩) := by
  obtain ⟨c, a', hca⟩ := List.exists_cons_of_ne_nil (natDigits_ne_nil m)
  have hc : isDigitChar c = true :=
    natDigits_all m c (by rw [hca]; exact List.mem_cons_self c a')
  have hdigits : ∀ x ∈ (natDigits m ++ List.replicate z '0'), isDigitChar x = true := by
    intro x hx
    rcases List.mem_append.1 hx with h | h
    · exact natDigits_all m x h
    · rw [List.eq_of_mem_replicate h]
      decide
  have hm : parseMantissa ((natDigits m ++ List.replicate z '0') ++ r) =
      some (⟨(readNat (natDigits m ++ List.replicate z '0') : Int), 0⟩, r) :=
    parseMantissa_nodot _ r hdigits
      (by simp [hca]) hr1 hr2 hdot
  have hread : readNat (natDigits m ++ List.replicate z '0') = m * 10 ^ z := by
    rw [readNat_append, readNat_replicate_zero, readNat_natDigits, List.length_replicate]
    omega
  refine ⟨c, a' ++ (List.replicate z '0' ++ r), by rw [hca]; simp, hc, fun neg => ?_⟩
  have hm' : parseMantissa (c :: (a' ++ (List.replicate z '0' ++ r))) =
      some (⟨((m * 10 ^ z : Nat) : Int), 0⟩, r) := by
    rw [← List.cons_append, ← hca, ← List.append_assoc, hm, hread]
  rw [parseAfterSign_eval neg c _ hc _ r hm', hE]
  have hd : dMulPow10 ⟨((m * 10 ^ z : Nat) : Int), 0⟩ (E : Int) =
      ⟨((m * 10 ^ z : Nat) : Int) * 10 ^ E, 0⟩ := by
    unfold dMulPow10
    rw [if_pos (by omega)]
    simp
  rw [hd]
  cases neg with
  | false => rfl
  | true => rfl

/-- Parsing a printed form with a decimal point after the first `j` digits,
then a non-numeric remainder carrying the exponent `E`. -/
theorem parseAfterSign_point (m j E : Nat) (r : List Char) (hm0 : m ≠ 0)
    (hj1 : 1 ≤ j) (hjk : j < (natDigits m).length)
    (hr1 : r.takeWhile isDigitChar = []) (hr2 : r.dropWhile isDigitChar = r)
    (hE : parseExpPart r = (E : Int)) :
    ∃ c rest, (natDigits m).take j ++ '.' :: ((natDigits m).drop j ++ r) = c :: rest ∧
      isDigitChar c = true ∧
      ∀ neg : Bool, parseAfterSign neg (c :: rest) =
        some (.fin (decCanon (if neg then -((m : Int) * 10 ^ E) else (m : Int) * 10 ^ E)
          ((natDigits m).length - j))) := by
  have htne : (natDigits m).take j ≠ [] := by
    have hlt : ((natDigits m).take j).length = j := by
      rw [List.length_take]
      omega
    intro hnil
    rw [hnil] at hlt
    simp only [List.length_nil] at hlt
    omega
  obtain ⟨c, a', hca⟩ := List.exists_cons_of_ne_nil htne
  have hc : isDigitChar c = true :=
    natDigits_all m c (List.take_subset j _ (by rw [hca]; exact List.mem_cons_self c a'))
  have hm : parseMantissa ((natDigits m).take j ++ '.' :: ((natDigits m).drop j ++ r)) =
      some (⟨(readNat ((natDigits m).take j) : Int) * 10 ^ ((natDigits m).drop j).length +
        (readNat ((natDigits m).drop j) : Int), ((natDigits m).drop j).length⟩, r) :=
    parseMantissa_point _ _ r
      (fun x hx => natDigits_all m x (List.take_subset j _ hx))
      (fun x hx => natDigits_all m x (List.drop_subset j _ hx))
      hr1 hr2 (fun hc0 => htne hc0.1)
  have hsplit : readNat ((natDigits m).take j) * 10 ^ ((natDigits m).drop j).length +
      readNat ((natDigits m).drop j) = m := by
    have h0 := readNat_append ((natDigits m).take j) ((natDigits m).drop j)
    rw [List.take_append_drop, readNat_natDigits] at h0
    omega
  have hmval : parseMantissa ((natDigits m).take j ++ '.' :: ((natDigits m).drop j ++ r)) =
      some (⟨(m : Int), ((natDigits m).drop j).length⟩, r) := by
    rw [hm]
    congr 2
    have h1 : ((readNat ((natDigits m).take j) : Int)) * 10 ^ ((natDigits m).drop j).length +
        (readNat ((natDigits m).drop j) : Int) =
        ((readNat ((natDigits m).take j) * 10 ^ ((natDigits m).drop j).length +
          readNat ((natDigits m).drop j) : Nat) : Int) := by
      push_cast
      ring
    rw [h1, hsplit]
  have hlen : ((natDigits m).drop j).length = (natDigits m).length - j := by
    rw [List.length_drop]
  refine ⟨c, a' ++ '.' :: ((natDigits m).drop j ++ r), by rw [hca]; rfl, hc, fun neg => ?_⟩
  have hm' : parseMantissa (c :: (a' ++ '.' :: ((natDigits m).drop j ++ r))) =
      some (⟨(m : Int), (natDigits m).length - j⟩, r) := by
    rw [← List.cons_append, ← hca, hmval, hlen]
  rw [parseAfterSign_eval neg c _ hc _ r hm', hE]
  have hd : dMulPow10 ⟨(m : Int), (natDigits m).length - j⟩ (E : Int) =
      ⟨(m : Int) * 10 ^ E, (natDigits m).length - j⟩ := by
    unfold dMulPow10
    rw [if_pos (by omega)]
    simp
  rw [hd]

/-- Reading the output of the large-value `toString` back: for a canonical
positive decimal of value at least one, every printed shape parses to the
value it printed, under either sign. -/
theorem parse_print_master (M s : Nat) (hM : 0 < M)
    (hcan : s ≠ 0 → ¬ M % 10 = 0) (hge : 10 ^ s ≤ M) :
    ∃ c rest, jsToStringPos M s = c :: rest ∧ isDigitChar c = true ∧
      ∀ neg : Bool, parseAfterSign neg (c :: rest) =
        some (.fin ⟨if neg then -(M : Int) else (M : Int), s⟩) := by
  obtain ⟨m, t, hmt⟩ : ∃ m t, stripZeros M = (m, t) := ⟨_, _, rfl⟩
  have hspec := stripZeros_spec M
  rw [hmt] at hspec
  dsimp only at hspec
  have hval : m * 10 ^ t = M := hspec.1
  obtain ⟨hm10, hm0⟩ := hspec.2 (by omega)
  have hk1 : 1 ≤ (natDigits m).length := List.length_pos.2 (natDigits_ne_nil m)
  have hbound := natDigits_len_bound m hm0
  have hskt : s < (natDigits m).length + t := by
    have h2 : m * 10 ^ t < 10 ^ (natDigits m).length * 10 ^ t :=
      (Nat.mul_lt_mul_right (pow_pos (by norm_num) t)).2 hbound.2
    rw [hval] at h2
    have h3 : (10 : Nat) ^ s < 10 ^ ((natDigits m).length + t) := by
      rw [pow_add]
      omega
    exact (Nat.pow_lt_pow_iff_right (by norm_num)).1 h3
  have ht0 : s ≠ 0 → t = 0 := by
    intro hs
    by_contra ht
    obtain ⟨t', rfl⟩ : ∃ t', t = t' + 1 := ⟨t - 1, by omega⟩
    apply hcan hs
    rw [← hval, pow_succ, ← Nat.mul_assoc]
    exact Nat.mul_mod_left _ 10
  have hcastM : ((m * 10 ^ t : Nat) : Int) = (M : Int) := by
    exact_mod_cast congrArg (fun x : Nat => (x : Int)) hval
  have hout : jsToStringPos M s =
      (if ((natDigits m).length : Int) ≤
          ((natDigits m).length : Int) + (t : Int) - (s : Int) ∧
          ((natDigits m).length : Int) + (t : Int) - (s : Int) ≤ 21 then
        natDigits m ++ List.replicate ((((natDigits m).length : Int) + (t : Int) - (s : Int)) -
          ((natDigits m).length : Int)).toNat '0'
      else if 0 < ((natDigits m).length : Int) + (t : Int) - (s : Int) ∧
          ((natDigits m).length : Int) + (t : Int) - (s : Int) ≤ 21 then
        (natDigits m).take (((natDigits m).length : Int) + (t : Int) - (s : Int)).toNat ++
          '.' :: (natDigits m).drop (((natDigits m).length : Int) + (t : Int) - (s : Int)).toNat
      else if -6 < ((natDigits m).length : Int) + (t : Int) - (s : Int) ∧
          ((natDigits m).length : Int) + (t : Int) - (s : Int) ≤ 0 then
        '0' :: '.' :: (List.replicate (-(((natDigits m).length : Int) + (t : Int) -
          (s : Int))).toNat '0' ++ natDigits m)
      else if (natDigits m).length = 1 then
        natDigits m ++ 'e' ::
          ((if ((natDigits m).length : Int) + (t : Int) - (s : Int) - 1 < 0 then ['-'] else ['+']) ++
            natDigits ((((natDigits m).length : Int) + (t : Int) - (s : Int)) - 1).natAbs)
      else
        (natDigits m).take 1 ++ '.' :: ((natDigits m).drop 1 ++ 'e' ::
          ((if ((natDigits m).length : Int) + (t : Int) - (s : Int) - 1 < 0 then ['-'] else ['+']) ++
            natDigits ((((natDigits m).length : Int) + (t : Int) - (s : Int)) - 1).natAbs))) := by
    unfold jsToStringPos
    rw [hmt]
  rw [hout]
  by_cases hb1 : ((natDigits m).length : Int) ≤
      ((natDigits m).length : Int) + (t : Int) - (s : Int) ∧
      ((natDigits m).length : Int) + (t : Int) - (s : Int) ≤ 21
  · -- plain integer shape: forces s = 0
    rw [if_pos hb1]
    have hs0 : s = 0 := by
      by_cases hs : s = 0
      · exact hs
      · have := ht0 hs
        omega
    have hz : ((((natDigits m).length : Int) + (t : Int) - (s : Int)) -
        ((natDigits m).length : Int)).toNat = t := by omega
    rw [hz]
    obtain ⟨c, rest, hsh, hc, hpas⟩ := parseAfterSign_nodot m t 0 [] hm0 rfl rfl
      (fun r' h => by cases h) (by simp [parseExpPart])
    rw [List.append_nil] at hsh
    refine ⟨c, rest, hsh, hc, fun neg => ?_⟩
    rw [hpas neg]
    have hA : ((m * 10 ^ t : Nat) : Int) * 10 ^ (0 : Nat) = (M : Int) := by
      rw [pow_zero, mul_one, hcastM]
    rw [hA, hs0]
  · rw [if_neg hb1]
    by_cases hb2 : 0 < ((natDigits m).length : Int) + (t : Int) - (s : Int) ∧
        ((natDigits m).length : Int) + (t : Int) - (s : Int) ≤ 21
    · -- point shape: forces s ≠ 0, hence t = 0 and m = M
      rw [if_pos hb2]
      have hs : s ≠ 0 := by
        intro hs0
        exact hb1 ⟨by omega, hb2.2⟩
      have ht : t = 0 := ht0 hs
      have hmM : m = M := by
        rw [← hval, ht, pow_zero, mul_one]
      have hj1 : 1 ≤ ((((natDigits m).length : Int) + (t : Int) - (s : Int))).toNat := by
        omega
      have hjk : ((((natDigits m).length : Int) + (t : Int) - (s : Int))).toNat <
          (natDigits m).length := by
        omega
      obtain ⟨c, rest, hsh, hc, hpas⟩ := parseAfterSign_point m
        ((((natDigits m).length : Int) + (t : Int) - (s : Int))).toNat 0 [] hm0 hj1 hjk
        rfl rfl (by simp [parseExpPart])
      rw [List.append_nil] at hsh
      refine ⟨c, rest, hsh, hc, fun neg => ?_⟩
      rw [hpas neg]
      have hksub : (natDigits m).length -
          ((((natDigits m).length : Int) + (t : Int) - (s : Int))).toNat = s := by
        omega
      have hmInt : ¬ (m : Int) % 10 = 0 := by omega
      congr 1
      congr 1
      cases neg with
      | false =>
        rw [if_neg (by simp), if_neg (by simp), pow_zero, mul_one, hksub,
          decCanon_eq_self _ _ (fun _ => hmInt), hmM]
      | true =>
        rw [if_pos rfl, if_pos rfl, pow_zero, mul_one, hksub, decCanon_neg,
          decCanon_eq_self _ _ (fun _ => hmInt), hmM]
    · rw [if_neg hb2, if_neg (by omega)]
      -- exponential shape: n > 21
      have hn21 : 21 < ((natDigits m).length : Int) + (t : Int) - (s : Int) := by omega
      rw [if_neg (show ¬ ((natDigits m).length : Int) + (t : Int) - (s : Int) - 1 < 0 from
        by omega)]
      have hEparse : parseExpPart ('e' :: '+' :: natDigits
          ((((natDigits m).length : Int) + (t : Int) - (s : Int)) - 1).natAbs) =
          ((((((natDigits m).length : Int) + (t : Int) - (s : Int)) - 1).natAbs : Nat) : Int) := by
        rw [parseExpPart_eplus _ (natDigits_all _) (natDigits_ne_nil _), readNat_natDigits]
      have hrtw : ('e' :: '+' :: natDigits
          ((((natDigits m).length : Int) + (t : Int) - (s : Int)) - 1).natAbs).takeWhile
          isDigitChar = [] := takeWhile_cons_neg _ _ (by decide)
      have hrdw : ('e' :: '+' :: natDigits
          ((((natDigits m).length : Int) + (t : Int) - (s : Int)) - 1).natAbs).dropWhile
          isDigitChar = _ := dropWhile_cons_neg _ _ (by decide)
      by_cases hk : (natDigits m).length = 1
      · -- one-digit exponential shape: forces s = 0
        rw [if_pos hk]
        have hs0 : s = 0 := by
          by_contra hs
          have := ht0 hs
          omega
        obtain ⟨c, rest, hsh, hc, hpas⟩ := parseAfterSign_nodot m 0
          ((((natDigits m).length : Int) + (t : Int) - (s : Int)) - 1).natAbs
          ('e' :: '+' :: natDigits
            ((((natDigits m).length : Int) + (t : Int) - (s : Int)) - 1).natAbs)
          hm0 hrtw hrdw (fun r' h => by simp at h) hEparse
        rw [show List.replicate 0 '0' = ([] : List Char) from rfl, List.nil_append] at hsh
        refine ⟨c, rest, by exact hsh, hc, fun neg => ?_⟩
        rw [hpas neg]
        have hEt : ((((natDigits m).length : Int) + (t : Int) - (s : Int)) - 1).natAbs = t := by
          omega
        have hA : ((m * 10 ^ 0 : Nat) : Int) *
            10 ^ ((((natDigits m).length : Int) + (t : Int) - (s : Int)) - 1).natAbs =
            (M : Int) := by
          rw [hEt, ← hcastM]
          push_cast
          ring
        rw [hA, hs0]
      · -- many-digit exponential shape
        rw [if_neg hk]
        have hk2 : 2 ≤ (natDigits m).length := by omega
        obtain ⟨c, rest, hsh, hc, hpas⟩ := parseAfterSign_point m 1
          ((((natDigits m).length : Int) + (t : Int) - (s : Int)) - 1).natAbs
          ('e' :: '+' :: natDigits
            ((((natDigits m).length : Int) + (t : Int) - (s : Int)) - 1).natAbs)
          hm0 le_rfl (by omega) hrtw hrdw hEparse
        refine ⟨c, rest, by rw [← hsh]; rfl, hc, fun neg => ?_⟩
        rw [hpas neg]
        have hmInt : ¬ (m : Int) % 10 = 0 := by omega
        have hdc : decCanon ((m : Int) *
            10 ^ ((((natDigits m).length : Int) + (t : Int) - (s : Int)) - 1).natAbs)
            ((natDigits m).length - 1) = ⟨(M : Int), s⟩ := by
          rw [decCanon_mul_pow (m : Int) hmInt]
          by_cases hs : s = 0
          · rw [if_pos (by omega)]
            have hexp : ((((natDigits m).length : Int) + (t : Int) - (s : Int)) - 1).natAbs -
                ((natDigits m).length - 1) = t := by omega
            rw [hexp, hs]
            congr 1
            rw [← hcastM]
            push_cast
            ring
          · have ht : t = 0 := ht0 hs
            have hmM : m = M := by
              rw [← hval, ht, pow_zero, mul_one]
            subst hmM
            rw [if_neg (by omega)]
            congr 1
            omega
        congr 1
        congr 1
        cases neg with
        | false => rw [if_neg (by simp), if_neg (by simp), hdc]
        | true => rw [if_pos rfl, if_pos rfl, decCanon_neg, hdc]

/-- Every finite value the parser returns is canonical: `parseAfterSign`
always wraps its result in `decCanon`. -/
theorem parseAfterSign_canonical (neg : Bool) (cs : List Char) (d : Dec)
    (h : parseAfterSign neg cs = some (.fin d)) : dCanonical d := by
  unfold parseAfterSign at h
  split at h
  · simp at h
  · split at h
    · exact absurd h (by simp)
    · simp only [Option.some.injEq, JsNum.fin.injEq] at h
      rw [← h]
      exact decCanon_canonical _ _

/-- Every finite value `parseFloat` returns is canonical. -/
theorem jsParseFloat_canonical (s : String) (d : Dec)
    (h : jsParseFloat s = some (.fin d)) : dCanonical d := by
  unfold jsParseFloat at h
  exact parseAfterSign_canonical _ _ d h

/-- A point-free prefix followed by a `fixedString` body is in two-decimal
form: it ends in a point and exactly two digits, with no other point. -/
theorem twoDecimalForm_fixedString (pre : List Char)
    (hpre : ∀ c ∈ pre, (c == '.') = false) (n : Nat) :
    twoDecimalForm (String.mk (pre ++ fixedString n)) = true := by
  unfold twoDecimalForm
  rw [show (String.mk (pre ++ fixedString n)).toList = pre ++ fixedString n from rfl]
  rw [fixedString_eq]
  have hrev : (pre ++ ((if n < 100 then ['0'] else natDigits (n / 100)) ++
      '.' :: [digitChar (n % 100 / 10), digitChar (n % 10)])).reverse =
      digitChar (n % 10) :: digitChar (n % 100 / 10) :: '.' ::
        ((if n < 100 then ['0'] else natDigits (n / 100)).reverse ++ pre.reverse) := by
    simp
  rw [hrev]
  show (isDigitChar (digitChar (n % 100 / 10)) && isDigitChar (digitChar (n % 10)) &&
    ('.' == '.') &&
    ((if n < 100 then ['0'] else natDigits (n / 100)).reverse ++ pre.reverse).all
      (fun c => !(c == '.'))) = true
  simp only [Bool.and_eq_true]
  refine ⟨⟨⟨digitChar_isDigit _ (by omega), digitChar_isDigit _ (by omega)⟩, by decide⟩, ?_⟩
  rw [List.all_eq_true]
  intro c hc
  rw [List.mem_append] at hc
  rcases hc with hc | hc
  · rw [List.mem_reverse] at hc
    have hd := intPart_digits n c hc
    have hne : ¬ c = '.' := ne_of_digit hd (by decide)
    simp [hne]
  · rw [List.mem_reverse] at hc
    simp only [Bool.not_eq_true']
    exact hpre c hc

/-- A canonical finite value whose `toFixed(2)` output is not `"-0.00"`
formats back to the same string. -/
theorem toFixed2_stable (num : Int) (scale : Nat)
    (hcan : dCanonical ⟨num, scale⟩)
    (hne : toFixed2 (.fin ⟨num, scale⟩) ≠ "-0.00") :
    formatDecimal (toFixed2 (.fin ⟨num, scale⟩)) = toFixed2 (.fin ⟨num, scale⟩) := by
  by_cases hbig : 10 ^ 23 ≤ (200 * num.natAbs + 10 ^ scale) / (2 * 10 ^ scale)
  · have hP : 1 ≤ 10 ^ scale := Nat.one_le_pow _ _ (by norm_num)
    have h200 : 10 ^ 23 * (2 * 10 ^ scale) ≤ 200 * num.natAbs + 10 ^ scale :=
      (Nat.le_div_iff_mul_le (by positivity)).1 hbig
    have hge : 10 ^ scale ≤ num.natAbs := by omega
    have hMpos : 0 < num.natAbs := by omega
    have hcan' : scale ≠ 0 → ¬ num.natAbs % 10 = 0 := by
      intro h0
      have hi : ¬ num % 10 = 0 := hcan h0
      omega
    obtain ⟨c, rest, hout, hc, hpas⟩ := parse_print_master num.natAbs scale hMpos hcan' hge
    rw [toFixed2_fin]
    dsimp only
    rw [if_pos hbig]
    by_cases hneg : num < 0
    · rw [if_pos hneg, hout]
      show formatDecimal (String.mk ('-' :: c :: rest)) = String.mk ('-' :: c :: rest)
      unfold formatDecimal
      rw [jsParseFloat_mk_minus_digit c rest hc, hpas true, if_pos rfl]
      show toFixed2 (.fin ⟨-(num.natAbs : Int), scale⟩) = String.mk ('-' :: c :: rest)
      rw [toFixed2_fin]
      dsimp only
      simp only [Int.natAbs_neg, Int.natAbs_ofNat]
      rw [if_pos hbig, if_pos (by omega), hout]
      rfl
    · rw [if_neg hneg, hout]
      show formatDecimal (String.mk (c :: rest)) = String.mk (c :: rest)
      unfold formatDecimal
      rw [jsParseFloat_mk_digit c rest hc, hpas false, if_neg (by decide)]
      show toFixed2 (.fin ⟨(num.natAbs : Int), scale⟩) = String.mk (c :: rest)
      rw [toFixed2_fin]
      dsimp only
      simp only [Int.natAbs_ofNat]
      rw [if_pos hbig, if_neg (by omega), hout]
      rfl
  · rw [toFixed2_fin] at hne ⊢
    dsimp only at hne ⊢
    rw [if_neg hbig] at hne ⊢
    by_cases hneg : num < 0
    · rw [if_pos hneg] at hne ⊢
      have hn0 : 0 < (200 * num.natAbs + 10 ^ scale) / (2 * 10 ^ scale) := by
        rcases Nat.eq_zero_or_pos ((200 * num.natAbs + 10 ^ scale) / (2 * 10 ^ scale))
          with h0 | h0
        · exfalso
          apply hne
          rw [h0]
          decide
        · exact h0
      exact reformat_fixedString_neg _ (by omega) hn0
    · rw [if_neg hneg] at hne ⊢
      exact reformat_fixedString _ (by omega)

/-- C9 counterexample: `formatDecimal` is neither idempotent nor always
two-decimal. `"Infinity"` parses to a finite-formatter bypass and is
returned verbatim, which has no decimals at all; and `"-0.001"` rounds to
`"-0.00"`, which reformats to `"0.00"` — the round-trip equation fails. -/
theorem formatDecimal_counterexample :
    formatDecimal "Infinity" = "Infinity" ∧
    twoDecimalForm "Infinity" = false ∧
    formatDecimal "-0.001" = "-0.00" ∧
    formatDecimal (formatDecimal "-0.001") = "0.00" ∧
    ¬ formatDecimal (formatDecimal "-0.001") = formatDecimal "-0.001" := by
  decide

/-- C9 (amended): `formatDecimal` returns `"0.00"` on every unparseable
input; on a parseable finite value whose rounded hundredths stay below
`10²³` the output has exactly two digits after the single decimal point;
and the formatter is idempotent on every input whose first format is not
`"-0.00"` (inputs parsing to `±Infinity` are returned as
`"Infinity"`/`"-Infinity"` verbatim, and those are fixed points too). -/
theorem formatDecimal_normalizes :
    (∀ s : String, jsParseFloat s = none → formatDecimal s = "0.00") ∧
    (∀ (s : String) (d : Dec), jsParseFloat s = some (.fin d) →
      (200 * d.num.natAbs + 10 ^ d.scale) / (2 * 10 ^ d.scale) < 10 ^ 23 →
      twoDecimalForm (formatDecimal s) = true) ∧
    (∀ s : String, ¬ formatDecimal s = "-0.00" →
      formatDecimal (formatDecimal s) = formatDecimal s) := by
  refine ⟨?_, ?_, ?_⟩
  · intro s hs
    unfold formatDecimal
    rw [hs]
  · intro s d hs hn
    have h1 : formatDecimal s = toFixed2 (.fin d) := by
      unfold formatDecimal
      rw [hs]
    rw [h1, toFixed2_fin, if_neg (by omega)]
    by_cases hneg : d.num < 0
    · rw [if_pos hneg]
      exact twoDecimalForm_fixedString ['-'] (by decide) _
    · rw [if_neg hneg]
      exact twoDecimalForm_fixedString [] (by simp) _
  · intro s hne
    cases hp : jsParseFloat s with
    | none =>
      have h1 : formatDecimal s = "0.00" := by
        unfold formatDecimal
        rw [hp]
      rw [h1]
      decide
    | some v =>
      cases v with
      | inf ng =>
        have h1 : formatDecimal s = toFixed2 (.inf ng) := by
          unfold formatDecimal
          rw [hp]
        cases ng with
        | false =>
          rw [h1]
          decide
        | true =>
          rw [h1]
          decide
      | fin d =>
        have h1 : formatDecimal s = toFixed2 (.fin d) := by
          unfold formatDecimal
          rw [hp]
        rw [h1] at hne ⊢
        obtain ⟨dn, dsc⟩ := d
        exact toFixed2_stable dn dsc (jsParseFloat_canonical s ⟨dn, dsc⟩ hp) hne

/-- C9 witness: `"abc"` degrades to `"0.00"`; `"19.995"` parses to the
finite value `19995/10³`, formats to a two-decimal string, and reformatting
that string is the identity. -/
theorem formatDecimal_normalizes_witness :
    formatDecimal "abc" = "0.00" ∧
    twoDecimalForm (formatDecimal "19.995") = true ∧
    formatDecimal (formatDecimal "19.995") = formatDecimal "19.995" :=
  ⟨formatDecimal_normalizes.1 "abc" (by decide),
   formatDecimal_normalizes.2.1 "19.995" ⟨19995, 3⟩ (by decide) (by decide),
   formatDecimal_normalizes.2.2 "19.995" (by decide)⟩

/-! ## Claim C10: the force flag in the storage cascade -/

/-- C10: `deleteUserAccount` never reads its `forceDelete` parameter (it is
only interpolated into a log line), so the storage-layer cascade performs
identical deletions with and without it. -/
theorem delete_user_account_force_flag_irrelevant :
    ∀ (s : DB) (userId : String),
      deleteUserAccount s userId true = deleteUserAccount s userId false := by
  intro s userId
  rfl

end Artsy
